import Mathlib

/-!
# 20q-game: room lifecycle and turn protocol of `server.js`

A shallow embedding of the socket handlers of `src/server.js`.

* The global `rooms` map and each room's `players` map are JavaScript `Map`s;
  they are represented by insertion-ordered association lists (`OMap`).
* A handler is a function from the registry, the calling socket id and the
  payload fields to the new registry and the list of emitted effects.
* Payload fields are untyped in the source; `JSVal` covers the primitive values
  (objects and non-integral numbers are outside the model). A number is held as
  its integer value together with the text that `String` gives for it, so the
  number formatting of the library (exponent form from `1e21`, shortest digits
  above `2^53`) is carried by the value and not computed.
* `String.prototype.toLowerCase` is a parameter `lower : String → String` of the
  one handler that uses it.
-/

namespace TwentyQ

/-! ## JavaScript primitives -/

/-- Primitive JavaScript values that a payload field can hold. A number `num n shown`
is the integer value `n` of the number and `shown`, the text `String(n)` of that
number: `num 7 "7"`, `num (10 ^ 21) "1e+21"`. -/
inductive JSVal where
  | undefined
  | null
  | bool (b : Bool)
  | num (n : Int) (shown : String)
  | str (s : String)
  deriving DecidableEq, Repr

/-- Truthiness of a value, as used by `||` and `!`. -/
def JSVal.truthy : JSVal → Bool
  | .undefined => false
  | .null => false
  | .bool b => b
  | .num n _ => n != 0
  | .str s => s != ""

/-- The expression `a || b`. -/
def JSVal.or (a b : JSVal) : JSVal :=
  if a.truthy then a else b

/-- The conversion `String(v)`; for a number it is the text that the value carries. -/
def JSVal.toStr : JSVal → String
  | .undefined => "undefined"
  | .null => "null"
  | .bool true => "true"
  | .bool false => "false"
  | .num _ shown => shown
  | .str s => s

/-- The comparison `n === v` of a value with the number `n` of the server (a question
id): true exactly for the number payload whose value is `n`. -/
def JSVal.strictEqNat (v : JSVal) (n : Nat) : Bool :=
  match v with
  | .num m _ => decide (m = (n : Int))
  | _ => false

/-- Code points removed by `String.prototype.trim` (WhiteSpace and LineTerminator). -/
def jsSpaceCodes : List Nat :=
  [0x09, 0x0A, 0x0B, 0x0C, 0x0D, 0x20, 0xA0, 0x1680,
   0x2000, 0x2001, 0x2002, 0x2003, 0x2004, 0x2005, 0x2006, 0x2007, 0x2008, 0x2009, 0x200A,
   0x2028, 0x2029, 0x202F, 0x205F, 0x3000, 0xFEFF]

/-- Whether `trim` strips the character. -/
def isJsSpace (c : Char) : Bool :=
  jsSpaceCodes.contains c.toNat

/-- The list form of `trim`: drop the leading and the trailing run of white space. -/
def trimChars (cs : List Char) : List Char :=
  ((cs.dropWhile isJsSpace).reverse.dropWhile isJsSpace).reverse

/-- The method `String.prototype.trim`. -/
def jsTrim (s : String) : String :=
  ⟨trimChars s.data⟩

/-! ## Insertion-ordered maps (`Map`) -/

/-- A JavaScript `Map`: the entries in insertion order. -/
abbrev OMap (κ ν : Type) := List (κ × ν)

namespace OMap

variable {κ ν : Type} [DecidableEq κ]

/-- The method `Map.prototype.get`; `none` stands for `undefined`. -/
def get : OMap κ ν → κ → Option ν
  | [], _ => none
  | (k, v) :: rest, key => if k = key then some v else get rest key

/-- The method `Map.prototype.has`. -/
def has (m : OMap κ ν) (key : κ) : Bool :=
  (get m key).isSome

/-- The method `Map.prototype.set`: an existing key keeps its position, a new key goes last. -/
def set : OMap κ ν → κ → ν → OMap κ ν
  | [], key, val => [(key, val)]
  | (k, v) :: rest, key, val =>
    if k = key then (k, val) :: rest else (k, v) :: set rest key val

/-- The method `Map.prototype.delete`. -/
def delete (m : OMap κ ν) (key : κ) : OMap κ ν :=
  m.filter (fun e => e.1 ≠ key)

/-- The keys in insertion order (`Map.prototype.keys`). -/
def keys (m : OMap κ ν) : List κ :=
  m.map Prod.fst

/-- A `Map` holds at most one entry per key. -/
def WF (m : OMap κ ν) : Prop :=
  (keys m).Nodup

instance (m : OMap κ ν) : Decidable (WF m) :=
  inferInstanceAs (Decidable (keys m).Nodup)

end OMap

/-! ## Data model -/

/-- The value of `room.status`. -/
inductive Status where
  | waiting
  | playing
  | ended
  deriving DecidableEq, Repr

/-- The value of a player's `role`. -/
inductive Role where
  | thinker
  | guesser
  deriving DecidableEq, Repr

/-- An entry of `room.players`. -/
structure Player where
  name : JSVal
  role : Role
  deriving DecidableEq, Repr

/-- An element of `room.questions`; the field `asker` is the source's `by`. -/
structure Question where
  id : Nat
  asker : String
  text : String
  answer : JSVal
  deriving DecidableEq, Repr

/-- An element of `room.guesses`; the field `guesser` is the source's `by`. -/
structure Guess where
  guesser : String
  text : String
  correct : Bool
  deriving DecidableEq, Repr

/-- The room object built by `createRoom`. -/
structure Room where
  code : JSVal
  status : Status
  players : OMap String Player
  thinkerSocketId : Option String
  secretWord : Option String
  questions : List Question
  guesses : List Guess
  turnOrder : List String
  turnIdx : Nat
  maxQuestions : Nat
  deriving DecidableEq, Repr

/-- The global `rooms` map. -/
abbrev Registry := OMap JSVal Room

/-- An element of the array returned by `getPlayers`. -/
structure PlayerView where
  id : String
  name : JSVal
  role : Role
  deriving DecidableEq, Repr

/-- The object returned by `publicRoomState`. -/
structure PublicRoomState where
  code : JSVal
  status : Status
  players : List PlayerView
  maxQuestions : Nat
  deriving DecidableEq, Repr

/-- The named events of the protocol with their payloads. -/
inductive Event where
  | systemError (message : String)
  | roomState (view : PublicRoomState)
  | roundStarted (maxQuestions : Nat) (players : List PlayerView)
  | roundSecret (secretWord : Option String)
  | turnNow (socketId : JSVal) (name : JSVal)
  | questionNew (q : Question) (byName : JSVal)
  | questionUpdate (q : Question)
  | guessNew (guesser : String) (name : JSVal) (text : String) (correct : Bool)
  | roundEnded (message : String) (secretWord : Option String)
      (questions : List Question) (guesses : List Guess)
  deriving DecidableEq, Repr

/-- What a handler asks of the transport layer. -/
inductive Effect where
  | joinRoom (sid : String) (code : JSVal)
  | reply (sid : String) (ev : Event)
  | toRoom (target : JSVal) (ev : Event)
  deriving DecidableEq, Repr

/-! ## Helpers of the source -/

/-- The function `getPlayers`. -/
def getPlayers (room : Room) : List PlayerView :=
  room.players.map (fun e => { id := e.1, name := e.2.name, role := e.2.role })

/-- The function `publicRoomState`. -/
def publicRoomState (room : Room) : PublicRoomState :=
  { code := room.code, status := room.status, players := getPlayers room,
    maxQuestions := room.maxQuestions }

/-- The expression `room.players.get(id)?.name`. -/
def playerName (room : Room) (id : String) : JSVal :=
  match room.players.get id with
  | some p => p.name
  | none => .undefined

/-- The function `createRoom`: store a blank waiting room under `code`. -/
def createRoom (rooms : Registry) (code : JSVal) : Registry :=
  rooms.set code
    { code := code, status := .waiting, players := [],
      thinkerSocketId := none, secretWord := none,
      questions := [], guesses := [], turnOrder := [], turnIdx := 0, maxQuestions := 20 }

/-- The function `endRound`: set the status and broadcast the history. The argument
`someoneWon` is not used by the source either. -/
def endRound (rooms : Registry) (code : JSVal) (_someoneWon : Bool) (message : String) :
    Registry × List Effect :=
  match rooms.get code with
  | none => (rooms, [])
  | some room =>
    let room1 := { room with status := Status.ended }
    (rooms.set code room1,
      [.toRoom code (.roundEnded message room1.secretWord room1.questions room1.guesses)])

/-- The broadcast `turn:now` for the handle at `turnOrder[turnIdx]`. -/
def turnNow (room : Room) (code : JSVal) : Effect :=
  match room.turnOrder[room.turnIdx]? with
  | some nextId => .toRoom code (.turnNow (.str nextId) (playerName room nextId))
  | none => .toRoom code (.turnNow .undefined .undefined)

/-- A socket id or `null` as a value. -/
def optStr : Option String → JSVal
  | some s => .str s
  | none => .null

/-- The expression `String(secretWord || '').trim()`. -/
def secretText (secretWord : JSVal) : String :=
  jsTrim (secretWord.or (.str "")).toStr

/-- The assignment `q.answer = answer` on the first question found by
`questions.find(x => x.id === id)`; the array keeps its other elements. -/
def answerFirst : List Question → JSVal → JSVal → List Question
  | [], _, _ => []
  | x :: rest, id, answer =>
    if id.strictEqNat x.id then { x with answer := answer } :: rest
    else x :: answerFirst rest id answer

/-! ## Socket handlers -/

/-- The handler of `room:create`. -/
def roomCreate (rooms : Registry) (sid : String) (code name : JSVal) :
    Registry × List Effect :=
  if rooms.has code then
    (rooms, [.reply sid (.systemError "Codice stanza già esistente")])
  else
    let rooms1 := createRoom rooms code
    match rooms1.get code with
    | none => (rooms1, [])
    | some room =>
      let room1 := { room with
        players := room.players.set sid { name := name, role := .thinker },
        thinkerSocketId := some sid }
      (rooms1.set code room1,
        [.joinRoom sid code, .toRoom code (.roomState (publicRoomState room1))])

/-- The handler of `room:join`. -/
def roomJoin (rooms : Registry) (sid : String) (code name : JSVal) :
    Registry × List Effect :=
  match rooms.get code with
  | none => (rooms, [.reply sid (.systemError "Stanza non trovata")])
  | some room =>
    if room.status ≠ .waiting then
      (rooms, [.reply sid (.systemError "Partita già iniziata")])
    else
      let room1 := { room with
        players := room.players.set sid { name := name, role := .guesser } }
      (rooms.set code room1,
        [.joinRoom sid code, .toRoom code (.roomState (publicRoomState room1))])

/-- The handler of `round:start`. The secret is stored before it is validated. -/
def roundStart (rooms : Registry) (sid : String) (code secretWord : JSVal) :
    Registry × List Effect :=
  match rooms.get code with
  | none => (rooms, [])
  | some room =>
    if some sid ≠ room.thinkerSocketId then (rooms, [])
    else
      let room1 := { room with secretWord := some (secretText secretWord) }
      if secretText secretWord = "" then
        (rooms.set code room1, [.reply sid (.systemError "Parola segreta vuota")])
      else
        let room2 := { room1 with
          status := .playing,
          questions := [],
          guesses := [],
          turnOrder := room1.players.keys.filter (fun id => some id ≠ room1.thinkerSocketId),
          turnIdx := 0 }
        (rooms.set code room2,
          [.toRoom code (.roundStarted room2.maxQuestions (getPlayers room2)),
           .toRoom (optStr room2.thinkerSocketId) (.roundSecret room2.secretWord)]
          ++ (if room2.turnOrder.length > 0 then [turnNow room2 code] else []))

/-- The handler of `question:ask`. -/
def questionAsk (rooms : Registry) (sid : String) (code text : JSVal) :
    Registry × List Effect :=
  match rooms.get code with
  | none => (rooms, [])
  | some room =>
    if room.status ≠ .playing then (rooms, [])
    else if room.turnOrder[room.turnIdx]? ≠ some sid then
      (rooms, [.reply sid (.systemError "Non è il tuo turno")])
    else if room.questions.length ≥ room.maxQuestions then
      (rooms, [.reply sid (.systemError "Limite di 20 domande raggiunto")])
    else
      let q : Question :=
        { id := room.questions.length + 1, asker := sid, text := jsTrim text.toStr,
          answer := .null }
      let room1 := { room with questions := room.questions ++ [q] }
      (rooms.set code room1, [.toRoom code (.questionNew q (playerName room1 sid))])

/-- The handler of `question:answer`. -/
def questionAnswer (rooms : Registry) (sid : String) (code id answer : JSVal) :
    Registry × List Effect :=
  match rooms.get code with
  | none => (rooms, [])
  | some room =>
    if some sid ≠ room.thinkerSocketId then (rooms, [])
    else
      match room.questions.find? (fun x => id.strictEqNat x.id) with
      | none => (rooms, [])
      | some q =>
        let room1 := { room with questions := answerFirst room.questions id answer }
        let room2 :=
          if room1.turnOrder.length > 0 then
            { room1 with turnIdx := (room1.turnIdx + 1) % room1.turnOrder.length }
          else room1
        let evs : List Effect :=
          [.toRoom code (.questionUpdate { q with answer := answer })]
          ++ (if room1.turnOrder.length > 0 then [turnNow room2 code] else [])
        let rooms2 := rooms.set code room2
        if room2.questions.length ≥ room2.maxQuestions then
          let ended := endRound rooms2 code false "Domande esaurite. Nessuno ha indovinato."
          (ended.1, evs ++ ended.2)
        else (rooms2, evs)

/-- The handler of `guess:submit`. The result is `none` when the handler throws:
`room.secretWord.toLowerCase()` is a `TypeError` while `secretWord` is `null`. -/
def guessSubmit (lower : String → String) (rooms : Registry) (sid : String)
    (code text : JSVal) : Option (Registry × List Effect) :=
  match rooms.get code with
  | none => some (rooms, [])
  | some room =>
    if room.status ≠ .playing then some (rooms, [])
    else
      match room.secretWord with
      | none => none
      | some secret =>
        let guess := jsTrim text.toStr
        let correct := decide (lower guess = lower secret)
        let room1 := { room with
          guesses := room.guesses ++ [{ guesser := sid, text := guess, correct := correct }] }
        let rooms1 := rooms.set code room1
        let evs : List Effect :=
          [.toRoom code (.guessNew sid (playerName room1 sid) guess correct)]
        if correct then
          let ended := endRound rooms1 code true ((playerName room1 sid).toStr ++ " ha indovinato!")
          some (ended.1, evs ++ ended.2)
        else some (rooms1, evs)

/-- The loop of the `disconnect` handler over the entries of `rooms`. -/
def disconnectLoop (sid : String) : List (JSVal × Room) → Registry × List Effect
  | [] => ([], [])
  | (code, room) :: rest =>
    let tail := disconnectLoop sid rest
    if !room.players.has sid then ((code, room) :: tail.1, tail.2)
    else
      let room1 := { room with players := room.players.delete sid }
      if some sid = room1.thinkerSocketId then
        (tail.1,
          .toRoom code (.systemError "Il Pensatore ha lasciato la stanza. Round terminato.")
            :: tail.2)
      else
        ((code, room1) :: tail.1,
          .toRoom code (.roomState (publicRoomState room1)) :: tail.2)

/-- The handler of `disconnect`. -/
def disconnect (rooms : Registry) (sid : String) : Registry × List Effect :=
  disconnectLoop sid rooms

/-! ## The server as a transition system -/

/-- One inbound event: the socket it arrives on and its payload. -/
inductive Op where
  | create (sid : String) (code name : JSVal)
  | join (sid : String) (code name : JSVal)
  | start (sid : String) (code secretWord : JSVal)
  | ask (sid : String) (code text : JSVal)
  | answer (sid : String) (code id answer : JSVal)
  | guess (sid : String) (code text : JSVal)
  | disconnect (sid : String)
  deriving DecidableEq, Repr

/-- Dispatch of one event; `none` when the handler throws. -/
def handle (lower : String → String) (rooms : Registry) : Op → Option (Registry × List Effect)
  | .create sid code name => some (roomCreate rooms sid code name)
  | .join sid code name => some (roomJoin rooms sid code name)
  | .start sid code secretWord => some (roundStart rooms sid code secretWord)
  | .ask sid code text => some (questionAsk rooms sid code text)
  | .answer sid code id answer => some (questionAnswer rooms sid code id answer)
  | .guess sid code text => guessSubmit lower rooms sid code text
  | .disconnect sid => some (disconnect rooms sid)

/-- Run a sequence of events from a registry; `none` as soon as a handler throws. -/
def run (lower : String → String) : Registry → List Op → Option Registry
  | rooms, [] => some rooms
  | rooms, op :: ops =>
    match handle lower rooms op with
    | none => none
    | some res => run lower res.1 ops

/-- The registries the server can reach from the empty `rooms` map. -/
inductive Reachable (lower : String → String) : Registry → Prop where
  | init : Reachable lower []
  | step {rooms : Registry} {op : Op} {res : Registry × List Effect} :
      Reachable lower rooms → handle lower rooms op = some res → Reachable lower res.1

/-! ## Room-level view of the handlers

What each handler does to the room stored under the code of its payload. The
lemmas `roomJoin_fst` … `guessSubmit_eq` show that the handlers above store
exactly these rooms. -/

/-- The room after `room:join` from socket `sid`. -/
def joinedRoom (room : Room) (sid : String) (name : JSVal) : Room :=
  if room.status ≠ .waiting then room
  else { room with players := room.players.set sid { name := name, role := .guesser } }

/-- The room after `round:start` from socket `sid`. -/
def startedRoom (room : Room) (sid : String) (secretWord : JSVal) : Room :=
  if some sid ≠ room.thinkerSocketId then room
  else if secretText secretWord = "" then { room with secretWord := some (secretText secretWord) }
  else
    { room with
      secretWord := some (secretText secretWord),
      status := .playing,
      questions := [],
      guesses := [],
      turnOrder := room.players.keys.filter (fun id => some id ≠ room.thinkerSocketId),
      turnIdx := 0 }

/-- The guard of `question:ask`: playing, the caller's turn, budget left. -/
def canAsk (room : Room) (sid : String) : Prop :=
  room.status = .playing ∧ room.turnOrder[room.turnIdx]? = some sid
    ∧ room.questions.length < room.maxQuestions

instance (room : Room) (sid : String) : Decidable (canAsk room sid) := by
  unfold canAsk; infer_instance

/-- The question object built by `question:ask`. -/
def newQuestion (room : Room) (sid : String) (text : JSVal) : Question :=
  { id := room.questions.length + 1, asker := sid, text := jsTrim text.toStr, answer := .null }

/-- The room after `question:ask` from socket `sid`. -/
def askedRoom (room : Room) (sid : String) (text : JSVal) : Room :=
  if canAsk room sid then { room with questions := room.questions ++ [newQuestion room sid text] }
  else room

/-- The room after `question:answer` from socket `sid`. -/
def answeredRoom (room : Room) (sid : String) (id answer : JSVal) : Room :=
  if some sid ≠ room.thinkerSocketId then room
  else
    match room.questions.find? (fun x => id.strictEqNat x.id) with
    | none => room
    | some _ =>
      let room1 := { room with questions := answerFirst room.questions id answer }
      let room2 :=
        if room1.turnOrder.length > 0 then
          { room1 with turnIdx := (room1.turnIdx + 1) % room1.turnOrder.length }
        else room1
      if room2.questions.length ≥ room2.maxQuestions then { room2 with status := .ended }
      else room2

/-- The guess object built by `guess:submit` against the secret `secret`. -/
def newGuess (lower : String → String) (secret sid : String) (text : JSVal) : Guess :=
  { guesser := sid, text := jsTrim text.toStr,
    correct := decide (lower (jsTrim text.toStr) = lower secret) }

/-- The room after `guess:submit` from socket `sid`, when the room is playing and
its secret is `secret`. -/
def guessedRoom (lower : String → String) (room : Room) (secret sid : String)
    (text : JSVal) : Room :=
  { room with
    guesses := room.guesses ++ [newGuess lower secret sid text],
    status := if (newGuess lower secret sid text).correct then .ended else room.status }

/-- The room stored by a successful `room:create` from socket `sid`. -/
def createdRoom (sid : String) (code name : JSVal) : Room :=
  { code := code, status := .waiting, players := [(sid, { name := name, role := .thinker })],
    thinkerSocketId := some sid, secretWord := none,
    questions := [], guesses := [], turnOrder := [], turnIdx := 0, maxQuestions := 20 }

/-- The room after the `disconnect` of a socket `sid` that is one of its players. -/
def leftRoom (room : Room) (sid : String) : Room :=
  { room with players := room.players.delete sid }

/-- The number of questions whose `answer` is still `null`. -/
def outstanding (room : Room) : Nat :=
  (room.questions.filter (fun q => decide (q.answer = JSVal.null))).length

/-- How one event changes the room stored under `code`, when the room is still
stored afterwards: `r` before, `r'` after. -/
inductive RoomStep (lower : String → String) (code : JSVal) : Op → Room → Room → Prop where
  | same (op : Op) (r : Room) : RoomStep lower code op r r
  | join (sid : String) (name : JSVal) (r : Room) :
      RoomStep lower code (.join sid code name) r (joinedRoom r sid name)
  | start (sid : String) (secretWord : JSVal) (r : Room) :
      RoomStep lower code (.start sid code secretWord) r (startedRoom r sid secretWord)
  | ask (sid : String) (text : JSVal) (r : Room) :
      RoomStep lower code (.ask sid code text) r (askedRoom r sid text)
  | answer (sid : String) (id answer : JSVal) (r : Room) :
      RoomStep lower code (.answer sid code id answer) r (answeredRoom r sid id answer)
  | guess (sid : String) (text : JSVal) (r : Room) (secret : String) :
      r.status = .playing → r.secretWord = some secret →
      RoomStep lower code (.guess sid code text) r (guessedRoom lower r secret sid text)
  | leave (sid : String) (r : Room) :
      r.players.has sid = true → some sid ≠ r.thinkerSocketId →
      RoomStep lower code (.disconnect sid) r (leftRoom r sid)

/-! ## Concrete runs used to evaluate the handlers -/

/-- The room code of the example runs. -/
def demoCode : JSVal := .str "ABCD"

/-- Alice creates the room, Bob joins, Alice starts with the secret `turtle`. -/
def demoSetup : List Op :=
  [.create "A" demoCode (.str "Alice"), .join "B" demoCode (.str "Bob"),
   .start "A" demoCode (.str "turtle")]

/-- The room stored after `demoSetup`. -/
def demoPlaying : Room :=
  { code := demoCode, status := .playing,
    players := [("A", { name := .str "Alice", role := .thinker }),
                ("B", { name := .str "Bob", role := .guesser })],
    thinkerSocketId := some "A", secretWord := some "turtle",
    questions := [], guesses := [], turnOrder := ["B"], turnIdx := 0, maxQuestions := 20 }

/-- The demo room after Bob guessed `turtle`. -/
def demoEnded : Room :=
  { demoPlaying with
    status := .ended, guesses := [{ guesser := "B", text := "turtle", correct := true }] }

/-- The demo room after the Thinker started again with the secret `cat`. -/
def demoRestarted : Room :=
  { demoPlaying with secretWord := some "cat" }

/-- The demo room after Bob asked two questions in a row, none answered yet. -/
def demoTwoPending : Room :=
  { demoPlaying with
    questions :=
      [{ id := 1, asker := "B", text := "Is it alive?", answer := .null },
       { id := 2, asker := "B", text := "Is it big?", answer := .null }] }

/-- Alice creates the room, Bob and Carol join, Alice starts with `turtle`, Bob asks
a question and, before it is answered, Carol guesses the word. -/
def demoGuessedEarly : List Op :=
  [.create "A" demoCode (.str "Alice"), .join "B" demoCode (.str "Bob"),
   .join "C" demoCode (.str "Carol"), .start "A" demoCode (.str "turtle"),
   .ask "B" demoCode (.str "Is it alive?"), .guess "C" demoCode (.str "turtle")]

/-- The room stored after `demoGuessedEarly`: Ended, with Bob's question unanswered. -/
def demoEndedPending : Room :=
  { code := demoCode, status := .ended,
    players := [("A", { name := .str "Alice", role := .thinker }),
                ("B", { name := .str "Bob", role := .guesser }),
                ("C", { name := .str "Carol", role := .guesser })],
    thinkerSocketId := some "A", secretWord := some "turtle",
    questions := [{ id := 1, asker := "B", text := "Is it alive?", answer := .null }],
    guesses := [{ guesser := "C", text := "turtle", correct := true }],
    turnOrder := ["B", "C"], turnIdx := 0, maxQuestions := 20 }

/-- Bob asks question `n + 1` and Alice answers it, for `n` below `k`. -/
def demoRounds (k : Nat) : List Op :=
  (List.range k).flatMap (fun n =>
    [.ask "B" demoCode (.str "Is it alive?"),
     .answer "A" demoCode (.num ((n : Int) + 1) (toString (n + 1))) (.str "yes")])

/-- The demo room with twenty questions of which the first `k` are answered. -/
def demoAsked (k : Nat) : Room :=
  { demoPlaying with
    questions := (List.range 20).map (fun n =>
      { id := n + 1, asker := "B", text := "Is it alive?",
        answer := if n < k then .str "yes" else .null }) }

/-- The demo room after Bob's first question, not yet answered. -/
def demoOnePending : Room :=
  { demoPlaying with
    questions := [{ id := 1, asker := "B", text := "Is it alive?", answer := .null }] }

/-- The demo room before the round is started. -/
def demoWaiting : Room :=
  { demoPlaying with status := .waiting, secretWord := none, turnOrder := [] }

/-- A registry with two rooms: Alice is the Thinker of `ABCD` and a Guesser in `WXYZ`. -/
def demoTwoRooms : Registry :=
  [(demoCode, demoPlaying),
   (.str "WXYZ",
    { code := .str "WXYZ", status := .waiting,
      players := [("Z", { name := .str "Zoe", role := .thinker }),
                  ("A", { name := .str "Alice", role := .guesser })],
      thinkerSocketId := some "Z", secretWord := none,
      questions := [], guesses := [], turnOrder := [], turnIdx := 0, maxQuestions := 20 })]

/-- The room after Alice creates it and starts alone: Playing with no Guesser. -/
def demoAlone : Room :=
  { code := demoCode, status := .playing,
    players := [("A", { name := .str "Alice", role := .thinker })],
    thinkerSocketId := some "A", secretWord := some "turtle",
    questions := [], guesses := [], turnOrder := [], turnIdx := 0, maxQuestions := 20 }

/-- The room after Alice creates it and then sends `room:join` for it herself. -/
def demoSelfJoined : Room :=
  { code := demoCode, status := .waiting,
    players := [("A", { name := .str "Alice", role := .guesser })],
    thinkerSocketId := some "A", secretWord := none,
    questions := [], guesses := [], turnOrder := [], turnIdx := 0, maxQuestions := 20 }

/-- The players of a room whose `role` is `thinker`. -/
def thinkerPlayers (room : Room) : List (String × Player) :=
  room.players.filter (fun e => decide (e.2.role = Role.thinker))

/-- The demo room after the Thinker sent `round:start` with an empty secret while the
round was being played. -/
def demoBlanked : Room :=
  { demoPlaying with secretWord := some "" }

/-- The status of the room under `code` after a run, if the run finished and the
room exists. -/
def statusAfter (rooms : Option Registry) (code : JSVal) : Option Status :=
  (rooms.bind (fun m => m.get code)).map (fun r => r.status)

/-- The room under `code` after a run. -/
def roomAfter (rooms : Option Registry) (code : JSVal) : Option Room :=
  rooms.bind (fun m => m.get code)

/-! ## Invariant of the reachable registries -/

/-- What holds of every room the server can hold under code `c`. -/
structure RoomOK (c : JSVal) (r : Room) : Prop where
  code_eq : r.code = c
  max_eq : r.maxQuestions = 20
  budget : r.questions.length ≤ r.maxQuestions
  waiting_fresh : r.status = .waiting → r.questions = []
  secret_set : r.status ≠ .waiting → r.secretWord ≠ none
  players_wf : r.players.WF
  thinker_in : ∃ t, r.thinkerSocketId = some t ∧ t ∈ r.players.keys
  turn_valid : r.turnOrder ≠ [] → r.turnIdx < r.turnOrder.length

/-- Unique codes, and every stored room is well formed. -/
def RegOK (rooms : Registry) : Prop :=
  rooms.WF ∧ ∀ e ∈ rooms, RoomOK e.1 e.2

/-- An ASCII stand-in for `toLowerCase`, used to evaluate concrete runs. -/
def asciiLower (s : String) : String :=
  ⟨s.data.map Char.toLower⟩

/-! ## Lemmas on insertion-ordered maps -/
namespace OMap
variable {κ ν : Type} [DecidableEq κ]

theorem get_set_self (m : OMap κ ν) (k : κ) (v : ν) : get (set m k v) k = some v := by
  induction m with
  | nil => simp [set, get]
  | cons e rest ih =>
    obtain ⟨k0, v0⟩ := e
    by_cases h : k0 = k <;> simp [set, get, h, ih]

theorem get_set_ne (m : OMap κ ν) {k k' : κ} (v : ν) (h : k ≠ k') :
    get (set m k v) k' = get m k' := by
  induction m with
  | nil => simp [set, get, h]
  | cons e rest ih =>
    obtain ⟨k0, v0⟩ := e
    by_cases h0 : k0 = k
    · subst h0; simp [set, get, h]
    · simp [set, get, h0, ih]

theorem mem_set {m : OMap κ ν} {k : κ} {v : ν} {e : κ × ν} (h : e ∈ set m k v) :
    e ∈ m ∨ e = (k, v) := by
  induction m with
  | nil => simpa [set] using h
  | cons e0 rest ih =>
    obtain ⟨k0, v0⟩ := e0
    by_cases h0 : k0 = k
    · subst h0
      simp only [set, if_true, List.mem_cons] at h
      rcases h with h | h
      · exact Or.inr h
      · exact Or.inl (List.mem_cons_of_mem _ h)
    · simp only [set, h0, if_false, List.mem_cons] at h
      rcases h with h | h
      · exact Or.inl (h ▸ List.mem_cons_self _ _)
      · rcases ih h with h | h
        · exact Or.inl (List.mem_cons_of_mem _ h)
        · exact Or.inr h

theorem mem_of_get {m : OMap κ ν} {k : κ} {v : ν} (h : get m k = some v) : (k, v) ∈ m := by
  induction m with
  | nil => simp [get] at h
  | cons e0 rest ih =>
    obtain ⟨k0, v0⟩ := e0
    by_cases h0 : k0 = k
    · subst h0; simp [get] at h; simp [h]
    · simp [get, h0] at h; exact List.mem_cons_of_mem _ (ih h)

theorem get_eq_none_iff {m : OMap κ ν} {k : κ} : get m k = none ↔ k ∉ keys m := by
  induction m with
  | nil => simp [get, keys]
  | cons e0 rest ih =>
    obtain ⟨k0, v0⟩ := e0
    by_cases h0 : k0 = k
    · subst h0; simp [get, keys]
    · simp only [get, h0, if_false, ih]
      simp [keys, Ne.symm h0]

theorem keys_set (m : OMap κ ν) (k : κ) (v : ν) :
    keys (set m k v) = if k ∈ keys m then keys m else keys m ++ [k] := by
  induction m with
  | nil => simp [set, keys]
  | cons e0 rest ih =>
    obtain ⟨k0, v0⟩ := e0
    by_cases h0 : k0 = k
    · subst h0; simp [set, keys]
    · have ih' : List.map Prod.fst (set rest k v)
          = if k ∈ List.map Prod.fst rest then List.map Prod.fst rest
            else List.map Prod.fst rest ++ [k] := ih
      simp only [set, h0, if_false, keys, List.map_cons, List.mem_cons, ih']
      simp only [Ne.symm h0, false_or]
      split <;> simp

theorem WF_set {m : OMap κ ν} (h : WF m) (k : κ) (v : ν) : WF (set m k v) := by
  unfold WF at *
  rw [keys_set]
  split
  · exact h
  · rename_i hk
    exact List.Nodup.append h (List.nodup_singleton k) (by simpa using hk)

theorem get_of_mem {m : OMap κ ν} (h : WF m) {k : κ} {v : ν} (hm : (k, v) ∈ m) :
    get m k = some v := by
  induction m with
  | nil => simp at hm
  | cons e0 rest ih =>
    obtain ⟨k0, v0⟩ := e0
    have hn : k0 ∉ keys rest ∧ WF rest := by simpa [WF, keys] using h
    rcases List.mem_cons.mp hm with h1 | h1
    · cases h1; simp [get]
    · have hk : k ∈ keys rest := List.mem_map.mpr ⟨(k, v), h1, rfl⟩
      have h0 : k0 ≠ k := fun e => hn.1 (e ▸ hk)
      simp [get, h0, ih hn.2 h1]

theorem set_set (m : OMap κ ν) (k : κ) (v w : ν) : set (set m k v) k w = set m k w := by
  induction m with
  | nil => simp [set]
  | cons e0 rest ih =>
    obtain ⟨k0, v0⟩ := e0
    by_cases h0 : k0 = k <;> simp [set, h0, ih]

theorem set_get_self {m : OMap κ ν} {k : κ} {v : ν} (h : get m k = some v) : set m k v = m := by
  induction m with
  | nil => simp [get] at h
  | cons e0 rest ih =>
    obtain ⟨k0, v0⟩ := e0
    by_cases h0 : k0 = k
    · subst h0; simp [get] at h; simp [set, h]
    · simp [get, h0] at h; simp [set, h0, ih h]

theorem has_delete_self (m : OMap κ ν) (k : κ) : has (delete m k) k = false := by
  have : get (delete m k) k = none := by
    rw [get_eq_none_iff]
    simp [keys, delete, List.mem_filter]
  simp [has, this]

end OMap

/-! ## The handlers store the room-level results -/

theorem answerFirst_length (qs : List Question) (id a : JSVal) :
    (answerFirst qs id a).length = qs.length := by
  induction qs with
  | nil => rfl
  | cons x rest ih => by_cases h : id.strictEqNat x.id = true <;> simp [answerFirst, h, ih]

theorem roomJoin_fst {rooms : Registry} {code : JSVal} {room : Room}
    (h : rooms.get code = some room) (sid : String) (name : JSVal) :
    (roomJoin rooms sid code name).1 = rooms.set code (joinedRoom room sid name) := by
  unfold roomJoin joinedRoom
  rw [h]
  by_cases hs : room.status = .waiting <;> simp [hs, OMap.set_get_self h]

theorem roundStart_fst {rooms : Registry} {code : JSVal} {room : Room}
    (h : rooms.get code = some room) (sid : String) (secretWord : JSVal) :
    (roundStart rooms sid code secretWord).1
      = rooms.set code (startedRoom room sid secretWord) := by
  unfold roundStart startedRoom
  rw [h]
  by_cases ht : some sid = room.thinkerSocketId
  · by_cases he : secretText secretWord = "" <;> simp [ht, he]
  · simp [ht, OMap.set_get_self h]

theorem questionAsk_fst {rooms : Registry} {code : JSVal} {room : Room}
    (h : rooms.get code = some room) (sid : String) (text : JSVal) :
    (questionAsk rooms sid code text).1 = rooms.set code (askedRoom room sid text) := by
  unfold questionAsk askedRoom canAsk newQuestion
  rw [h]
  by_cases hs : room.status = .playing
  · by_cases ht : room.turnOrder[room.turnIdx]? = some sid
    · by_cases hb : room.questions.length < room.maxQuestions
      · simp [hs, ht, hb, Nat.not_le.mpr hb]
      · simp [hs, ht, hb, OMap.set_get_self h, Nat.le_of_not_lt hb]
    · simp [hs, ht, OMap.set_get_self h]
  · simp [hs, OMap.set_get_self h]

theorem questionAnswer_fst {rooms : Registry} {code : JSVal} {room : Room}
    (h : rooms.get code = some room) (sid : String) (id answer : JSVal) :
    (questionAnswer rooms sid code id answer).1
      = rooms.set code (answeredRoom room sid id answer) := by
  unfold questionAnswer answeredRoom
  rw [h]
  by_cases ht : some sid = room.thinkerSocketId
  · simp only [ht, ne_eq, not_true_eq_false, if_false]
    cases hf : room.questions.find? (fun x => id.strictEqNat x.id) with
    | none => simp [OMap.set_get_self h]
    | some q =>
      by_cases hl : room.turnOrder.length > 0 <;>
        by_cases hm : room.maxQuestions ≤ (answerFirst room.questions id answer).length <;>
        simp [hl, hm, endRound, OMap.get_set_self, OMap.set_set]
  · simp [ht, OMap.set_get_self h]

theorem guessSubmit_eq (lower : String → String) {rooms : Registry} {code : JSVal}
    {room : Room} {secret : String} (h : rooms.get code = some room)
    (hs : room.status = .playing) (hw : room.secretWord = some secret)
    (sid : String) (text : JSVal) :
    ∃ evs, guessSubmit lower rooms sid code text
      = some (rooms.set code (guessedRoom lower room secret sid text), evs) := by
  unfold guessSubmit guessedRoom newGuess
  rw [h]
  simp only [hs, ne_eq, not_true_eq_false, if_false, hw]
  by_cases hc : lower (jsTrim text.toStr) = lower secret
  · simp [hc, endRound, OMap.get_set_self, OMap.set_set, hs]
  · simp [hc, hs]

theorem guessSubmit_idle (lower : String → String) {rooms : Registry} {code : JSVal}
    (h : ∀ room, rooms.get code = some room → room.status ≠ .playing)
    (sid : String) (text : JSVal) :
    guessSubmit lower rooms sid code text = some (rooms, []) := by
  unfold guessSubmit
  cases hg : rooms.get code with
  | none => rfl
  | some room => simp [h room hg]


theorem roomCreate_taken {rooms : Registry} {code : JSVal} (h : rooms.has code = true)
    (sid : String) (name : JSVal) :
    roomCreate rooms sid code name
      = (rooms, [.reply sid (.systemError "Codice stanza già esistente")]) := by
  simp [roomCreate, h]

theorem roomCreate_fst {rooms : Registry} {code : JSVal} (h : rooms.get code = none)
    (sid : String) (name : JSVal) :
    (roomCreate rooms sid code name).1 = rooms.set code (createdRoom sid code name) := by
  simp [roomCreate, OMap.has, h, createRoom, OMap.get_set_self, OMap.set_set, createdRoom,
    OMap.set]

theorem disconnectLoop_cons_fst (sid : String) (c : JSVal) (r : Room)
    (rest : List (JSVal × Room)) :
    (disconnectLoop sid ((c, r) :: rest)).1
      = if r.players.has sid = false then (c, r) :: (disconnectLoop sid rest).1
        else if some sid = r.thinkerSocketId then (disconnectLoop sid rest).1
        else (c, leftRoom r sid) :: (disconnectLoop sid rest).1 := by
  by_cases hp : r.players.has sid = false
  · simp [disconnectLoop, hp]
  · by_cases ht : some sid = r.thinkerSocketId <;> simp [disconnectLoop, hp, ht, leftRoom]

theorem disconnect_keys_subset (sid : String) (rooms : Registry) :
    ∀ k ∈ OMap.keys (disconnectLoop sid rooms).1, k ∈ OMap.keys rooms := by
  induction rooms with
  | nil => simp [disconnectLoop]
  | cons e rest ih =>
    obtain ⟨c, r⟩ := e
    intro k hk
    rw [disconnectLoop_cons_fst] at hk
    have ih' : k ∈ OMap.keys (disconnectLoop sid rest).1 → k ∈ OMap.keys rest := ih k
    simp only [OMap.keys, List.map_cons, List.mem_cons] at *
    split at hk
    · simp only [List.map_cons, List.mem_cons] at hk
      exact hk.imp_right ih'
    · split at hk
      · exact Or.inr (ih' hk)
      · simp only [List.map_cons, List.mem_cons] at hk
        exact hk.imp_right ih'

theorem disconnect_get_none {sid : String} {rooms : Registry} {code : JSVal}
    (h : rooms.get code = none) : (disconnect rooms sid).1.get code = none := by
  rw [OMap.get_eq_none_iff] at *
  exact fun hk => h (disconnect_keys_subset sid rooms code hk)

theorem disconnect_get {sid : String} {rooms : Registry} (hwf : rooms.WF) {code : JSVal}
    {room : Room} (h : rooms.get code = some room) :
    (disconnect rooms sid).1.get code
      = if room.players.has sid = false then some room
        else if some sid = room.thinkerSocketId then none
        else some (leftRoom room sid) := by
  induction rooms with
  | nil => simp [OMap.get] at h
  | cons e rest ih =>
    obtain ⟨c, r⟩ := e
    have hn : c ∉ OMap.keys rest ∧ OMap.WF rest := by simpa [OMap.WF, OMap.keys] using hwf
    unfold disconnect at *
    rw [disconnectLoop_cons_fst]
    by_cases hc : c = code
    · subst hc
      have hr : r = room := by simpa [OMap.get] using h
      subst hr
      have hrest : (disconnectLoop sid rest).1.get c = none :=
        disconnect_get_none (OMap.get_eq_none_iff.mpr hn.1)
      by_cases hp : r.players.has sid = false
      · simp [hp, OMap.get]
      · by_cases ht : some sid = r.thinkerSocketId
        · simp [hp, ht, hrest]
        · simp [hp, ht, OMap.get]
    · have h' : OMap.get rest code = some room := by simpa [OMap.get, hc] using h
      have hi := ih hn.2 h'
      by_cases hp : r.players.has sid = false
      · simpa [hp, OMap.get, hc] using hi
      · by_cases ht : some sid = r.thinkerSocketId
        · simpa [hp, ht] using hi
        · simpa [hp, ht, OMap.get, hc] using hi

theorem disconnect_wf {sid : String} {rooms : Registry} (hwf : rooms.WF) :
    (disconnect rooms sid).1.WF := by
  induction rooms with
  | nil => simpa [disconnect, disconnectLoop] using hwf
  | cons e rest ih =>
    obtain ⟨c, r⟩ := e
    have hn : c ∉ OMap.keys rest ∧ OMap.WF rest := by simpa [OMap.WF, OMap.keys] using hwf
    have hc : c ∉ OMap.keys (disconnectLoop sid rest).1 :=
      fun hk => hn.1 (disconnect_keys_subset sid rest c hk)
    have ih' := ih hn.2
    unfold disconnect at *
    rw [disconnectLoop_cons_fst]
    have hcons : ∀ x : Room, OMap.WF ((c, x) :: (disconnectLoop sid rest).1) := fun x =>
      List.nodup_cons.mpr ⟨hc, ih'⟩
    split
    · exact hcons r
    · split
      · exact ih'
      · exact hcons _

theorem disconnect_mem {sid : String} {rooms : Registry} {e : JSVal × Room}
    (h : e ∈ (disconnect rooms sid).1) :
    e ∈ rooms ∨ ∃ r, (e.1, r) ∈ rooms ∧ some sid ≠ r.thinkerSocketId ∧ e.2 = leftRoom r sid := by
  induction rooms with
  | nil => simp [disconnect, disconnectLoop] at h
  | cons e0 rest ih =>
    obtain ⟨c, r⟩ := e0
    unfold disconnect at *
    rw [disconnectLoop_cons_fst] at h
    have tl : e ∈ (disconnectLoop sid rest).1 → e ∈ (c, r) :: rest ∨
        ∃ r', (e.1, r') ∈ (c, r) :: rest ∧ some sid ≠ r'.thinkerSocketId
          ∧ e.2 = leftRoom r' sid := fun h => by
      rcases ih h with h | ⟨r', h1, h2⟩
      · exact Or.inl (List.mem_cons_of_mem _ h)
      · exact Or.inr ⟨r', List.mem_cons_of_mem _ h1, h2⟩
    split at h
    · rcases List.mem_cons.mp h with h | h
      · exact Or.inl (h ▸ List.mem_cons_self _ _)
      · exact tl h
    · split at h
      · exact tl h
      · rename_i ht
        rcases List.mem_cons.mp h with h | h
        · subst h
          exact Or.inr ⟨r, List.mem_cons_self _ _, ht, rfl⟩
        · exact tl h


/-! ## The invariant holds in every reachable registry -/

theorem OMap.keys_delete {κ ν : Type} [DecidableEq κ] (m : OMap κ ν) (k : κ) :
    OMap.keys (OMap.delete m k) = (OMap.keys m).filter (fun x => decide (x ≠ k)) := by
  induction m with
  | nil => rfl
  | cons e rest ih =>
    obtain ⟨k0, v0⟩ := e
    have ih' : List.map Prod.fst (List.filter (fun e => decide (e.1 ≠ k)) rest)
        = List.filter (fun x => decide (x ≠ k)) (List.map Prod.fst rest) := ih
    by_cases h : k0 = k
    · simpa [OMap.keys, OMap.delete, List.filter_cons, h] using ih'
    · simpa [OMap.keys, OMap.delete, List.filter_cons, h] using ih'

theorem OMap.WF_delete {κ ν : Type} [DecidableEq κ] {m : OMap κ ν} (h : OMap.WF m) (k : κ) :
    OMap.WF (OMap.delete m k) := by
  unfold OMap.WF at *
  rw [OMap.keys_delete]
  exact h.filter _

theorem roomOK_created (sid : String) (code name : JSVal) :
    RoomOK code (createdRoom sid code name) where
  code_eq := rfl
  max_eq := rfl
  budget := by simp [createdRoom]
  waiting_fresh := fun _ => rfl
  secret_set := by simp [createdRoom]
  players_wf := by simp [createdRoom, OMap.WF, OMap.keys]
  thinker_in := ⟨sid, rfl, by simp [createdRoom, OMap.keys]⟩
  turn_valid := by simp [createdRoom]

theorem roomOK_joined {c : JSVal} {r : Room} (h : RoomOK c r) (sid : String) (name : JSVal) :
    RoomOK c (joinedRoom r sid name) := by
  unfold joinedRoom
  split
  · exact h
  · obtain ⟨t, ht, hm⟩ := h.thinker_in
    exact
      { code_eq := h.code_eq, max_eq := h.max_eq, budget := h.budget,
        waiting_fresh := h.waiting_fresh, secret_set := h.secret_set,
        players_wf := OMap.WF_set h.players_wf _ _,
        thinker_in := ⟨t, ht, by
          show t ∈ OMap.keys (OMap.set r.players sid _)
          rw [OMap.keys_set]; split
          · exact hm
          · exact List.mem_append_left _ hm⟩,
        turn_valid := h.turn_valid }

theorem roomOK_started {c : JSVal} {r : Room} (h : RoomOK c r) (sid : String) (sw : JSVal) :
    RoomOK c (startedRoom r sid sw) := by
  unfold startedRoom
  split
  · exact h
  · split
    · exact
        { code_eq := h.code_eq, max_eq := h.max_eq, budget := h.budget,
          waiting_fresh := h.waiting_fresh, secret_set := fun _ => by simp,
          players_wf := h.players_wf, thinker_in := h.thinker_in, turn_valid := h.turn_valid }
    · exact
        { code_eq := h.code_eq, max_eq := h.max_eq, budget := by simp,
          waiting_fresh := fun _ => rfl, secret_set := fun _ => by simp,
          players_wf := h.players_wf, thinker_in := h.thinker_in,
          turn_valid := fun hne => List.length_pos.mpr hne }

theorem roomOK_asked {c : JSVal} {r : Room} (h : RoomOK c r) (sid : String) (text : JSVal) :
    RoomOK c (askedRoom r sid text) := by
  unfold askedRoom
  split
  · rename_i hc
    exact
      { code_eq := h.code_eq, max_eq := h.max_eq,
        budget := by
          have := hc.2.2
          simp only [List.length_append, List.length_singleton]; omega
        waiting_fresh := fun hw => by simp [hc.1] at hw,
        secret_set := h.secret_set,
        players_wf := h.players_wf, thinker_in := h.thinker_in, turn_valid := h.turn_valid }
  · exact h

theorem roomOK_answered {c : JSVal} {r : Room} (h : RoomOK c r) (sid : String)
    (id answer : JSVal) : RoomOK c (answeredRoom r sid id answer) := by
  unfold answeredRoom
  split
  · exact h
  · cases hf : r.questions.find? (fun x => id.strictEqNat x.id) with
    | none => exact h
    | some q =>
      have hne : r.questions ≠ [] := by
        intro he; simp [he] at hf
      have hnw : r.status ≠ .waiting := fun hw => hne (h.waiting_fresh hw)
      have hq : (answerFirst r.questions id answer) ≠ [] := by
        intro he
        have := answerFirst_length r.questions id answer
        rw [he] at this
        exact hne (List.length_eq_zero.mp this.symm)
      by_cases hl : r.turnOrder.length > 0 <;>
        by_cases hm : r.maxQuestions ≤ (answerFirst r.questions id answer).length <;>
        simp only [hl, hm, if_true, if_false, ge_iff_le] <;>
        exact
          { code_eq := h.code_eq, max_eq := h.max_eq,
            budget := by simpa [answerFirst_length] using h.budget,
            waiting_fresh := fun hw => by
              exfalso
              first
                | exact absurd hw hnw
                | cases hw
            secret_set := fun _ => h.secret_set hnw,
            players_wf := h.players_wf, thinker_in := h.thinker_in,
            turn_valid := by
              first
                | (intro _; exact Nat.mod_lt _ hl)
                | exact h.turn_valid }

theorem roomOK_guessed (lower : String → String) {c : JSVal} {r : Room} (h : RoomOK c r)
    (hs : r.status = .playing) (secret sid : String) (text : JSVal) :
    RoomOK c (guessedRoom lower r secret sid text) :=
  { code_eq := h.code_eq, max_eq := h.max_eq, budget := h.budget,
    waiting_fresh := fun hw => by
      exfalso
      simp only [guessedRoom, hs] at hw
      split at hw <;> cases hw
    secret_set := fun _ => h.secret_set (by simp [hs]),
    players_wf := h.players_wf, thinker_in := h.thinker_in, turn_valid := h.turn_valid }

theorem roomOK_left {c : JSVal} {r : Room} (h : RoomOK c r) {sid : String}
    (hne : some sid ≠ r.thinkerSocketId) : RoomOK c (leftRoom r sid) := by
  obtain ⟨t, ht, hm⟩ := h.thinker_in
  exact
    { code_eq := h.code_eq, max_eq := h.max_eq, budget := h.budget,
      waiting_fresh := h.waiting_fresh, secret_set := h.secret_set,
      players_wf := OMap.WF_delete h.players_wf sid,
      thinker_in := ⟨t, ht, by
        show t ∈ OMap.keys (OMap.delete r.players sid)
        rw [OMap.keys_delete]
        refine List.mem_filter.mpr ⟨hm, ?_⟩
        have : t ≠ sid := fun e => hne (by rw [ht, e])
        simpa using this⟩,
      turn_valid := h.turn_valid }

theorem regOK_set {rooms : Registry} (h : RegOK rooms) {code : JSVal} {r : Room}
    (hr : RoomOK code r) : RegOK (rooms.set code r) :=
  ⟨OMap.WF_set h.1 code r, fun e he => by
    rcases OMap.mem_set he with he | he
    · exact h.2 e he
    · subst he; exact hr⟩

theorem regOK_get {rooms : Registry} (h : RegOK rooms) {code : JSVal} {r : Room}
    (hg : rooms.get code = some r) : RoomOK code r :=
  h.2 (code, r) (OMap.mem_of_get hg)

theorem regOK_handle (lower : String → String) {rooms : Registry} (h : RegOK rooms) {op : Op}
    {res : Registry × List Effect} (hr : handle lower rooms op = some res) : RegOK res.1 := by
  cases op with
  | create sid code name =>
    simp only [handle, Option.some.injEq] at hr
    subst hr
    cases hg : rooms.get code with
    | none =>
      rw [roomCreate_fst hg]
      exact regOK_set h (roomOK_created sid code name)
    | some r =>
      rw [roomCreate_taken (by simp [OMap.has, hg])]
      exact h
  | join sid code name =>
    simp only [handle, Option.some.injEq] at hr
    subst hr
    cases hg : rooms.get code with
    | none => simpa [roomJoin, hg] using h
    | some r =>
      rw [roomJoin_fst hg]
      exact regOK_set h (roomOK_joined (regOK_get h hg) sid name)
  | start sid code sw =>
    simp only [handle, Option.some.injEq] at hr
    subst hr
    cases hg : rooms.get code with
    | none => simpa [roundStart, hg] using h
    | some r =>
      rw [roundStart_fst hg]
      exact regOK_set h (roomOK_started (regOK_get h hg) sid sw)
  | ask sid code text =>
    simp only [handle, Option.some.injEq] at hr
    subst hr
    cases hg : rooms.get code with
    | none => simpa [questionAsk, hg] using h
    | some r =>
      rw [questionAsk_fst hg]
      exact regOK_set h (roomOK_asked (regOK_get h hg) sid text)
  | answer sid code id answer =>
    simp only [handle, Option.some.injEq] at hr
    subst hr
    cases hg : rooms.get code with
    | none => simpa [questionAnswer, hg] using h
    | some r =>
      rw [questionAnswer_fst hg]
      exact regOK_set h (roomOK_answered (regOK_get h hg) sid id answer)
  | guess sid code text =>
    simp only [handle] at hr
    by_cases hp : ∃ r, rooms.get code = some r ∧ r.status = .playing
    · obtain ⟨r, hg, hs⟩ := hp
      have hok := regOK_get h hg
      cases hw : r.secretWord with
      | none => exact absurd hw (hok.secret_set (by simp [hs]))
      | some secret =>
        obtain ⟨evs, he⟩ := guessSubmit_eq lower hg hs hw sid text
        rw [he] at hr
        cases hr
        exact regOK_set h (roomOK_guessed lower hok hs secret sid text)
    · rw [guessSubmit_idle lower (fun r hg hs => hp ⟨r, hg, hs⟩)] at hr
      cases hr
      exact h
  | disconnect sid =>
    simp only [handle, Option.some.injEq] at hr
    subst hr
    refine ⟨disconnect_wf h.1, fun e he => ?_⟩
    rcases disconnect_mem he with he | ⟨r, h1, h2, h3⟩
    · exact h.2 e he
    · have := roomOK_left (h.2 _ h1) h2
      rw [h3]; exact this

theorem reachable_ok (lower : String → String) {rooms : Registry}
    (h : Reachable lower rooms) : RegOK rooms := by
  induction h with
  | init => exact ⟨List.nodup_nil, fun e he => by simp at he⟩
  | step _ hr ih => exact regOK_handle lower ih hr


theorem reachable_playing_secret (lower : String → String) {rooms : Registry}
    (h : Reachable lower rooms) {code : JSVal} {r : Room} (hg : rooms.get code = some r)
    (hs : r.status = .playing) : ∃ secret, r.secretWord = some secret :=
  Option.ne_none_iff_exists'.mp
    ((regOK_get (reachable_ok lower h) hg).secret_set (by simp [hs]))

theorem reachable_handle_total (lower : String → String) {rooms : Registry}
    (h : Reachable lower rooms) (op : Op) : ∃ res, handle lower rooms op = some res := by
  cases op with
  | guess sid code text =>
    by_cases hp : ∃ r, rooms.get code = some r ∧ r.status = .playing
    · obtain ⟨r, hg, hs⟩ := hp
      obtain ⟨secret, hw⟩ := reachable_playing_secret lower h hg hs
      obtain ⟨evs, he⟩ := guessSubmit_eq lower hg hs hw sid text
      exact ⟨_, he⟩
    · exact ⟨_, guessSubmit_idle lower (fun r hg hs => hp ⟨r, hg, hs⟩) sid text⟩
  | create sid code name => exact ⟨_, rfl⟩
  | join sid code name => exact ⟨_, rfl⟩
  | start sid code secretWord => exact ⟨_, rfl⟩
  | ask sid code text => exact ⟨_, rfl⟩
  | answer sid code id answer => exact ⟨_, rfl⟩
  | disconnect sid => exact ⟨_, rfl⟩

/-! ## One event seen from one room -/

theorem get_set_cases {rooms : Registry} {c code : JSVal} {r x r' : Room}
    (hg : rooms.get code = some r) (hg' : (rooms.set c x).get code = some r') :
    (c = code ∧ r' = x) ∨ (c ≠ code ∧ r' = r) := by
  by_cases hc : c = code
  · subst hc
    rw [OMap.get_set_self] at hg'
    exact Or.inl ⟨rfl, (Option.some.inj hg').symm⟩
  · rw [OMap.get_set_ne _ _ hc, hg] at hg'
    exact Or.inr ⟨hc, (Option.some.inj hg').symm⟩

theorem handle_roomStep (lower : String → String) {rooms : Registry} (hwf : rooms.WF)
    {op : Op} {res : Registry × List Effect} (hr : handle lower rooms op = some res)
    {code : JSVal} {r r' : Room} (hg : rooms.get code = some r)
    (hg' : res.1.get code = some r') : RoomStep lower code op r r' := by
  have same : ∀ {o : Op}, rooms.get code = some r' → RoomStep lower code o r r' := by
    intro o h
    rw [hg] at h
    cases h
    exact RoomStep.same o r
  cases op with
  | create sid c name =>
    simp only [handle, Option.some.injEq] at hr
    subst hr
    cases hc : rooms.get c with
    | none =>
      rw [roomCreate_fst hc] at hg'
      rcases get_set_cases hg hg' with ⟨h1, _⟩ | ⟨_, h2⟩
      · rw [h1, hg] at hc; cases hc
      · subst h2; exact RoomStep.same _ _
    | some x =>
      rw [roomCreate_taken (by simp [OMap.has, hc])] at hg'
      exact same hg'
  | join sid c name =>
    simp only [handle, Option.some.injEq] at hr
    subst hr
    cases hc : rooms.get c with
    | none => exact same (by simpa [roomJoin, hc] using hg')
    | some x =>
      rw [roomJoin_fst hc] at hg'
      rcases get_set_cases hg hg' with ⟨h1, h2⟩ | ⟨_, h2⟩
      · subst h1; rw [hg] at hc; cases hc; subst h2; exact RoomStep.join _ _ _
      · subst h2; exact RoomStep.same _ _
  | start sid c sw =>
    simp only [handle, Option.some.injEq] at hr
    subst hr
    cases hc : rooms.get c with
    | none => exact same (by simpa [roundStart, hc] using hg')
    | some x =>
      rw [roundStart_fst hc] at hg'
      rcases get_set_cases hg hg' with ⟨h1, h2⟩ | ⟨_, h2⟩
      · subst h1; rw [hg] at hc; cases hc; subst h2; exact RoomStep.start _ _ _
      · subst h2; exact RoomStep.same _ _
  | ask sid c text =>
    simp only [handle, Option.some.injEq] at hr
    subst hr
    cases hc : rooms.get c with
    | none => exact same (by simpa [questionAsk, hc] using hg')
    | some x =>
      rw [questionAsk_fst hc] at hg'
      rcases get_set_cases hg hg' with ⟨h1, h2⟩ | ⟨_, h2⟩
      · subst h1; rw [hg] at hc; cases hc; subst h2; exact RoomStep.ask _ _ _
      · subst h2; exact RoomStep.same _ _
  | answer sid c id answer =>
    simp only [handle, Option.some.injEq] at hr
    subst hr
    cases hc : rooms.get c with
    | none => exact same (by simpa [questionAnswer, hc] using hg')
    | some x =>
      rw [questionAnswer_fst hc] at hg'
      rcases get_set_cases hg hg' with ⟨h1, h2⟩ | ⟨_, h2⟩
      · subst h1; rw [hg] at hc; cases hc; subst h2; exact RoomStep.answer _ _ _ _
      · subst h2; exact RoomStep.same _ _
  | guess sid c text =>
    simp only [handle] at hr
    by_cases hp : ∃ x, rooms.get c = some x ∧ x.status = .playing ∧ x.secretWord ≠ none
    · obtain ⟨x, hc, hs, hw⟩ := hp
      obtain ⟨secret, hw⟩ := Option.ne_none_iff_exists'.mp hw
      obtain ⟨evs, he⟩ := guessSubmit_eq lower hc hs hw sid text
      rw [he] at hr
      cases hr
      rcases get_set_cases hg hg' with ⟨h1, h2⟩ | ⟨_, h2⟩
      · subst h1; rw [hg] at hc; cases hc; subst h2; exact RoomStep.guess _ _ _ _ hs hw
      · subst h2; exact RoomStep.same _ _
    · cases hc : rooms.get c with
      | none =>
        rw [guessSubmit_idle lower (by simp [hc])] at hr
        cases hr; exact same hg'
      | some x =>
        by_cases hs : x.status = .playing
        · have hw : x.secretWord = none := by
            by_contra hw; exact hp ⟨x, hc, hs, hw⟩
          simp [guessSubmit, hc, hs, hw] at hr
        · rw [guessSubmit_idle lower (by intro y hy; rw [hc] at hy; cases hy; exact hs)] at hr
          cases hr; exact same hg'
  | disconnect sid =>
    simp only [handle, Option.some.injEq] at hr
    subst hr
    rw [disconnect_get hwf hg] at hg'
    by_cases hp : r.players.has sid = false
    · simp only [hp, if_true, Option.some.injEq] at hg'
      subst hg'; exact RoomStep.same _ _
    · by_cases ht : some sid = r.thinkerSocketId
      · simp [hp, ht] at hg'
      · rw [if_neg hp, if_neg ht] at hg'
        cases hg'
        exact RoomStep.leave _ _ (by simpa using hp) ht

theorem reachable_run (lower : String → String) {rooms rooms' : Registry} (ops : List Op)
    (h : Reachable lower rooms) (hr : run lower rooms ops = some rooms') :
    Reachable lower rooms' := by
  induction ops generalizing rooms with
  | nil => simp only [run, Option.some.injEq] at hr; exact hr ▸ h
  | cons op ops ih =>
    unfold run at hr
    cases hh : handle lower rooms op with
    | none => simp [hh] at hr
    | some res =>
      simp only [hh] at hr
      exact ih (Reachable.step h hh) hr


/-! ## Status of the room-level results -/

theorem answeredRoom_status (r : Room) (sid : String) (id answer : JSVal) :
    (answeredRoom r sid id answer).status = r.status
      ∨ ((answeredRoom r sid id answer).status = .ended ∧ r.questions ≠ []) := by
  unfold answeredRoom
  split
  · exact Or.inl rfl
  · cases hf : r.questions.find? (fun x => id.strictEqNat x.id) with
    | none => exact Or.inl rfl
    | some q =>
      have hne : r.questions ≠ [] := by
        intro he; simp [he] at hf
      by_cases hl : r.turnOrder.length > 0 <;>
        by_cases hm : r.maxQuestions ≤ (answerFirst r.questions id answer).length <;>
        simp [hl, hm, hne]

theorem startedRoom_status (r : Room) (sid : String) (sw : JSVal) :
    (startedRoom r sid sw).status
      = if r.thinkerSocketId = some sid ∧ secretText sw ≠ "" then .playing else r.status := by
  unfold startedRoom
  by_cases ht : some sid = r.thinkerSocketId
  · by_cases he : secretText sw = "" <;> simp [ht.symm, he]
  · have : ¬ r.thinkerSocketId = some sid := fun h => ht h.symm
    simp [ht, this]

/-! ## C1: the order of the status values -/

/-- C1, the counterexample: after Bob's correct guess the room is Ended, and the
Thinker's next `round:start` puts the same room back to Playing. -/
theorem ended_room_restarts :
    statusAfter (run asciiLower [] (demoSetup ++ [.guess "B" demoCode (.str "turtle")]))
        demoCode = some .ended
    ∧ statusAfter (run asciiLower []
        (demoSetup ++ [.guess "B" demoCode (.str "turtle"), .start "A" demoCode (.str "cat")]))
        demoCode = some .playing := by
  decide

/-- C1, as amended: along every run a room's status never returns to Waiting and
never jumps from Waiting to Ended; a room that is not Playing becomes Playing
exactly on a `round:start` from its Thinker with a non-empty secret, so an Ended
room can be restarted. -/
theorem status_steps (lower : String → String) {rooms : Registry}
    (hreach : Reachable lower rooms) {op : Op} {res : Registry × List Effect}
    (hr : handle lower rooms op = some res) {code : JSVal} {r r' : Room}
    (hg : rooms.get code = some r) (hg' : res.1.get code = some r') :
    (r'.status = .waiting → r.status = .waiting)
    ∧ (r.status = .waiting → r'.status ≠ .ended)
    ∧ (r.status ≠ .playing →
        (r'.status = .playing ↔
          ∃ sid sw, op = .start sid code sw ∧ r.thinkerSocketId = some sid
            ∧ secretText sw ≠ "")) := by
  have hok := reachable_ok lower hreach
  have hrk := regOK_get hok hg
  have hstep := handle_roomStep lower hok.1 hr hg hg'
  have plain : r'.status = r.status → ¬ (∃ sid sw, op = .start sid code sw) →
      (r'.status = .waiting → r.status = .waiting)
      ∧ (r.status = .waiting → r'.status ≠ .ended)
      ∧ (r.status ≠ .playing →
        (r'.status = .playing ↔
          ∃ sid sw, op = .start sid code sw ∧ r.thinkerSocketId = some sid
            ∧ secretText sw ≠ "")) := by
    intro hs hop
    refine ⟨fun h => hs ▸ h, fun h => (by rw [hs, h]; simp), fun hnp => ⟨fun h => ?_, ?_⟩⟩
    · exact absurd (hs ▸ h) hnp
    · rintro ⟨sid, sw, h1, _⟩
      exact absurd ⟨sid, sw, h1⟩ hop
  cases op with
  | start sid c sw =>
    simp only [handle, Option.some.injEq] at hr
    subst hr
    by_cases hc : c = code
    · subst hc
      rw [roundStart_fst hg, OMap.get_set_self] at hg'
      cases hg'
      rw [startedRoom_status]
      by_cases hcond : r.thinkerSocketId = some sid ∧ secretText sw ≠ ""
      · rw [if_pos hcond]
        exact ⟨fun h => (by cases h), fun _ h => (by cases h),
          fun _ => ⟨fun _ => ⟨sid, sw, rfl, hcond.1, hcond.2⟩, fun _ => rfl⟩⟩
      · rw [if_neg hcond]
        refine ⟨id, fun h => (by rw [h]; simp), fun hnp => ⟨fun h => absurd h hnp, ?_⟩⟩
        rintro ⟨sid', sw', h1, h2, h3⟩
        cases h1
        exact absurd ⟨h2, h3⟩ hcond
    · cases hstep with
      | same => exact plain rfl (by rintro ⟨_, _, h⟩; cases h; exact hc rfl)
      | start => exact absurd rfl hc
  | create sid c name =>
    cases hstep with
    | same => exact plain rfl (by rintro ⟨_, _, h⟩; cases h)
  | join sid c name =>
    cases hstep with
    | same => exact plain rfl (by rintro ⟨_, _, h⟩; cases h)
    | join =>
      refine plain ?_ (by rintro ⟨_, _, h⟩; cases h)
      unfold joinedRoom; split <;> rfl
  | ask sid c text =>
    cases hstep with
    | same => exact plain rfl (by rintro ⟨_, _, h⟩; cases h)
    | ask =>
      refine plain ?_ (by rintro ⟨_, _, h⟩; cases h)
      unfold askedRoom; split <;> rfl
  | answer sid c id answer =>
    cases hstep with
    | same => exact plain rfl (by rintro ⟨_, _, h⟩; cases h)
    | answer =>
      rcases answeredRoom_status r sid id answer with h | ⟨h, hq⟩
      · exact plain h (by rintro ⟨_, _, h⟩; cases h)
      · have hnw : r.status ≠ .waiting := fun hw => hq (hrk.waiting_fresh hw)
        rw [h]
        refine ⟨fun h => (by cases h), fun hw => absurd hw hnw,
          fun _ => ⟨fun h => (by cases h), ?_⟩⟩
        rintro ⟨_, _, h1, _⟩; cases h1
  | guess sid c text =>
    cases hstep with
    | same => exact plain rfl (by rintro ⟨_, _, h⟩; cases h)
    | guess _ _ _ secret hs hw =>
      refine ⟨fun h => ?_, fun h => (by rw [hs] at h; cases h), fun hnp => absurd hs hnp⟩
      exfalso
      simp only [guessedRoom, hs] at h
      split at h <;> cases h
  | disconnect sid =>
    cases hstep with
    | same => exact plain rfl (by rintro ⟨_, _, h⟩; cases h)
    | leave => exact plain rfl (by rintro ⟨_, _, h⟩; cases h)


/-- C1, witness: the restart of the Ended demo room by its Thinker. -/
theorem status_steps_witness :
    (demoRestarted.status = .waiting → demoEnded.status = .waiting)
    ∧ (demoEnded.status = .waiting → demoRestarted.status ≠ .ended)
    ∧ (demoEnded.status ≠ .playing →
        (demoRestarted.status = .playing ↔
          ∃ sid sw, Op.start "A" demoCode (.str "cat") = .start sid demoCode sw
            ∧ demoEnded.thinkerSocketId = some sid ∧ secretText sw ≠ "")) :=
  @status_steps asciiLower [(demoCode, demoEnded)]
    (reachable_run asciiLower (demoSetup ++ [.guess "B" demoCode (.str "turtle")])
      Reachable.init (by decide))
    (.start "A" demoCode (.str "cat"))
    (roundStart [(demoCode, demoEnded)] "A" demoCode (.str "cat")) rfl
    demoCode demoEnded demoRestarted (by decide) (by decide)

/-! ## C2: the question budget -/

/-- C2: in every room of every reachable registry the number of questions is at
most `maxQuestions`, and `maxQuestions` is 20. -/
theorem questions_within_budget (lower : String → String) {rooms : Registry}
    (hreach : Reachable lower rooms) {code : JSVal} {r : Room}
    (hg : rooms.get code = some r) :
    r.questions.length ≤ r.maxQuestions ∧ r.maxQuestions = 20 :=
  have hok := regOK_get (reachable_ok lower hreach) hg
  ⟨hok.budget, hok.max_eq⟩

/-- C2, witness: the demo room after Bob asked two questions. -/
theorem questions_within_budget_witness :
    demoTwoPending.questions.length ≤ demoTwoPending.maxQuestions
      ∧ demoTwoPending.maxQuestions = 20 :=
  @questions_within_budget asciiLower [(demoCode, demoTwoPending)]
    (reachable_run asciiLower
      (demoSetup ++ [.ask "B" demoCode (.str "Is it alive?"), .ask "B" demoCode (.str "Is it big?")])
      Reachable.init (by decide))
    demoCode demoTwoPending (by decide)

/-! ## C3: when `question:ask` succeeds -/

/-- C3: `question:ask` appends the new question to the room exactly when the room
is Playing, `turnOrder[turnIdx]` is the caller and fewer than `maxQuestions`
questions exist; in every other case the registry is unchanged. -/
theorem ask_succeeds_iff {rooms : Registry} {code : JSVal} {room : Room}
    (hg : rooms.get code = some room) (sid : String) (text : JSVal) :
    ((questionAsk rooms sid code text).1.get code
        = some { room with
            questions := room.questions ++
              [{ id := room.questions.length + 1, asker := sid, text := jsTrim text.toStr,
                 answer := .null }] }
      ↔ (room.status = .playing ∧ room.turnOrder[room.turnIdx]? = some sid
          ∧ room.questions.length < room.maxQuestions))
    ∧ (¬ (room.status = .playing ∧ room.turnOrder[room.turnIdx]? = some sid
          ∧ room.questions.length < room.maxQuestions) →
        (questionAsk rooms sid code text).1 = rooms) := by
  rw [questionAsk_fst hg, OMap.get_set_self]
  unfold askedRoom
  by_cases hc : canAsk room sid
  · rw [if_pos hc]
    exact ⟨⟨fun _ => hc, fun _ => rfl⟩, fun hn => absurd hc hn⟩
  · rw [if_neg hc]
    refine ⟨⟨fun h => ?_, fun h => absurd h hc⟩, fun _ => OMap.set_get_self hg⟩
    exfalso
    have hl := congrArg (fun o => (o.map (fun r => r.questions.length)).getD 0) h
    simp at hl

/-- C3, witness: Bob holds the turn in the demo room and asks. -/
theorem ask_succeeds_iff_witness :
    ((questionAsk [(demoCode, demoPlaying)] "B" demoCode (.str " Is it alive? ")).1.get demoCode
        = some { demoPlaying with
            questions := demoPlaying.questions ++
              [{ id := demoPlaying.questions.length + 1, asker := "B",
                 text := jsTrim (JSVal.str " Is it alive? ").toStr, answer := .null }] }
      ↔ (demoPlaying.status = .playing
          ∧ demoPlaying.turnOrder[demoPlaying.turnIdx]? = some "B"
          ∧ demoPlaying.questions.length < demoPlaying.maxQuestions))
    ∧ (¬ (demoPlaying.status = .playing
          ∧ demoPlaying.turnOrder[demoPlaying.turnIdx]? = some "B"
          ∧ demoPlaying.questions.length < demoPlaying.maxQuestions) →
        (questionAsk [(demoCode, demoPlaying)] "B" demoCode (.str " Is it alive? ")).1
          = [(demoCode, demoPlaying)]) :=
  @ask_succeeds_iff [(demoCode, demoPlaying)] demoCode demoPlaying (by decide) "B"
    (.str " Is it alive? ")

/-! ## C4: `round:start` with an empty secret -/

theorem roundStart_empty {rooms : Registry} {code : JSVal} {room : Room} {sid : String}
    {secretWord : JSVal} (hg : rooms.get code = some room)
    (ht : room.thinkerSocketId = some sid) (he : secretText secretWord = "") :
    roundStart rooms sid code secretWord
      = (rooms.set code { room with secretWord := some "" },
          [.reply sid (.systemError "Parola segreta vuota")]) := by
  simp [roundStart, hg, ht, he]

/-- C4, the code at the failing input: the Thinker of the Playing demo room (secret
`turtle`) sends `round:start` with a blank secret, or with none. The error is
reported, but the stored secret has already been replaced by the empty string. -/
theorem empty_start_overwrites_secret :
    roomAfter (run asciiLower [] demoSetup) demoCode = some demoPlaying
    ∧ roundStart [(demoCode, demoPlaying)] "A" demoCode (.str "  ")
        = ([(demoCode, { demoPlaying with secretWord := some "" })],
            [.reply "A" (.systemError "Parola segreta vuota")])
    ∧ roundStart [(demoCode, demoPlaying)] "A" demoCode .undefined
        = ([(demoCode, { demoPlaying with secretWord := some "" })],
            [.reply "A" (.systemError "Parola segreta vuota")])
    ∧ ({ demoPlaying with secretWord := some "" } : Room).secretWord ≠ demoPlaying.secretWord := by
  decide


/-! ## C5: events after the round has ended -/

theorem ended_ask_guess_ignored (lower : String → String) {rooms : Registry} {code : JSVal}
    {room : Room} (hg : rooms.get code = some room) (hs : room.status = .ended)
    (sid : String) (text : JSVal) :
    (questionAsk rooms sid code text).1 = rooms
      ∧ guessSubmit lower rooms sid code text = some (rooms, []) := by
  refine ⟨?_, guessSubmit_idle lower (fun r hr => ?_) sid text⟩
  · simp [questionAsk, hg, hs]
  · rw [hg] at hr; cases hr; simp [hs]

/-- C5, the code at the failing input: the demo room is Ended by Carol's correct
guess while Bob's question is unanswered; the Thinker's `question:answer` is still
accepted: it sets the answer and moves `turnIdx` from 0 to 1. -/
theorem answer_accepted_after_end :
    roomAfter (run asciiLower [] demoGuessedEarly) demoCode = some demoEndedPending
    ∧ demoEndedPending.status = .ended
    ∧ (questionAnswer [(demoCode, demoEndedPending)] "A" demoCode (.num 1 "1") (.str "yes")).1
        = [(demoCode,
            { demoEndedPending with
              questions :=
                [{ id := 1, asker := "B", text := "Is it alive?", answer := .str "yes" }],
              turnIdx := 1 })] := by
  decide

/-! ## C6: unanswered questions -/

/-- C6, the counterexample: in the Playing demo room Bob asks twice in a row; both
questions are stored with `answer = null`. -/
theorem two_questions_pending :
    roomAfter (run asciiLower []
        (demoSetup ++ [.ask "B" demoCode (.str "Is it alive?"),
          .ask "B" demoCode (.str "Is it big?")])) demoCode = some demoTwoPending
    ∧ demoTwoPending.status = .playing
    ∧ outstanding demoTwoPending = 2 := by
  decide

theorem outstanding_le (r : Room) : outstanding r ≤ r.questions.length :=
  List.length_filter_le _ _

/-- C6, as amended: `question:ask` does not look at pending questions. In every
reachable registry, whenever the room is Playing, the caller holds the turn and the
budget is not used up, the ask adds one more unanswered question, the caller still
holds the turn afterwards, and the number of unanswered questions stays within
`maxQuestions`. -/
theorem ask_adds_outstanding (lower : String → String) {rooms : Registry}
    (hreach : Reachable lower rooms) {code : JSVal} {room : Room}
    (hg : rooms.get code = some room) {sid : String} (text : JSVal)
    (hs : room.status = .playing) (ht : room.turnOrder[room.turnIdx]? = some sid)
    (hb : room.questions.length < room.maxQuestions) :
    ∃ room', (questionAsk rooms sid code text).1.get code = some room'
      ∧ outstanding room' = outstanding room + 1
      ∧ room'.status = .playing
      ∧ room'.turnOrder[room'.turnIdx]? = some sid
      ∧ outstanding room' ≤ room'.maxQuestions := by
  have hok := regOK_get (reachable_ok lower hreach) hg
  have hc : canAsk room sid := ⟨hs, ht, hb⟩
  refine ⟨askedRoom room sid text, ?_, ?_, ?_, ?_, ?_⟩
  · rw [questionAsk_fst hg, OMap.get_set_self]
  · simp [askedRoom, hc, outstanding, newQuestion, List.filter_append]
  · simp [askedRoom, hc, hs]
  · simpa [askedRoom, hc] using ht
  · exact le_trans (outstanding_le _) (roomOK_asked hok sid text).budget

/-- C6, witness: Bob's second question in the demo room, his first still pending. -/
theorem ask_adds_outstanding_witness :
    ∃ room', (questionAsk [(demoCode, demoOnePending)] "B" demoCode
          (.str "Is it big?")).1.get demoCode = some room'
      ∧ outstanding room' = outstanding demoOnePending + 1
      ∧ room'.status = .playing
      ∧ room'.turnOrder[room'.turnIdx]? = some "B"
      ∧ outstanding room' ≤ room'.maxQuestions :=
  @ask_adds_outstanding asciiLower [(demoCode, demoOnePending)]
    (reachable_run asciiLower (demoSetup ++ [.ask "B" demoCode (.str "Is it alive?")])
      Reachable.init (by decide))
    demoCode demoOnePending (by decide) "B" (.str "Is it big?") (by decide) (by decide)
    (by decide)

/-! ## C7: the round ends when the budget is used up -/

theorem find_isSome_of_mem {qs : List Question} {id : JSVal}
    (h : ∃ q ∈ qs, id.strictEqNat q.id = true) :
    ∃ q, qs.find? (fun x => id.strictEqNat x.id) = some q := by
  obtain ⟨q, hq, he⟩ := h
  cases hf : qs.find? (fun x => id.strictEqNat x.id) with
  | some q' => exact ⟨q', rfl⟩
  | none =>
    rw [List.find?_eq_none] at hf
    exact absurd (by simpa using he) (hf q hq)

/-- C7: in a Playing room, after the Thinker answers a question that exists, the
status is Ended exactly when the number of questions has reached `maxQuestions`,
and is still Playing when it is below; the answer adds no question and no guess. -/
theorem answer_ends_at_budget {rooms : Registry} {code : JSVal} {room : Room}
    (hg : rooms.get code = some room) (hs : room.status = .playing) {sid : String}
    (ht : room.thinkerSocketId = some sid) {id : JSVal} (answer : JSVal)
    (hq : ∃ q ∈ room.questions, id.strictEqNat q.id = true) :
    ∃ room', (questionAnswer rooms sid code id answer).1.get code = some room'
      ∧ (room'.status = .ended ↔ room.maxQuestions ≤ room.questions.length)
      ∧ (room.questions.length < room.maxQuestions → room'.status = .playing)
      ∧ room'.questions.length = room.questions.length
      ∧ room'.guesses = room.guesses := by
  obtain ⟨q, hf⟩ := find_isSome_of_mem hq
  refine ⟨answeredRoom room sid id answer, ?_, ?_⟩
  · rw [questionAnswer_fst hg, OMap.get_set_self]
  · unfold answeredRoom
    rw [if_neg (by simp [ht]), hf]
    by_cases hl : room.turnOrder.length > 0 <;>
      by_cases hm : room.maxQuestions ≤ room.questions.length <;>
      simp [hl, hm, hs, answerFirst_length]

/-- C7, witness: the round of the spec's scenario. Bob asks twenty questions and
Alice answers each; before her twentieth answer the room is Playing with no guess,
after it the room is Ended, still with no guess. -/
theorem answer_ends_at_budget_witness :
    roomAfter (run asciiLower []
        (demoSetup ++ demoRounds 19 ++ [.ask "B" demoCode (.str "Is it alive?")])) demoCode
      = some (demoAsked 19)
    ∧ (demoAsked 19).status = .playing ∧ (demoAsked 19).guesses = []
    ∧ ∃ room', (questionAnswer [(demoCode, demoAsked 19)] "A" demoCode (.num 20 "20")
          (.str "yes")).1.get demoCode = some room'
      ∧ (room'.status = .ended ↔ (demoAsked 19).maxQuestions ≤ (demoAsked 19).questions.length)
      ∧ ((demoAsked 19).questions.length < (demoAsked 19).maxQuestions →
          room'.status = .playing)
      ∧ room'.questions.length = (demoAsked 19).questions.length
      ∧ room'.guesses = (demoAsked 19).guesses :=
  ⟨by decide, by decide, by decide,
    @answer_ends_at_budget [(demoCode, demoAsked 19)] demoCode (demoAsked 19) (by decide)
      (by decide) "A" (by decide) (.num 20 "20") (.str "yes")
      ⟨{ id := 20, asker := "B", text := "Is it alive?", answer := .null }, by decide,
        by decide⟩⟩


/-! ## C8: guesses -/

theorem dropWhile_space_append {pre : List Char} (hpre : ∀ c ∈ pre, isJsSpace c = true)
    (l : List Char) : (pre ++ l).dropWhile isJsSpace = l.dropWhile isJsSpace := by
  induction pre with
  | nil => rfl
  | cons c cs ih =>
    have hc : isJsSpace c = true := hpre c (List.mem_cons_self _ _)
    simp only [List.cons_append, List.dropWhile_cons, hc, if_true]
    exact ih (fun x hx => hpre x (List.mem_cons_of_mem _ hx))

theorem dropWhile_space_all {l : List Char} (h : ∀ c ∈ l, isJsSpace c = true) :
    l.dropWhile isJsSpace = [] := by
  simpa using dropWhile_space_append h []

theorem trimChars_pad {pre post : List Char} (hpre : ∀ c ∈ pre, isJsSpace c = true)
    (hpost : ∀ c ∈ post, isJsSpace c = true) (mid : List Char) :
    trimChars (pre ++ mid ++ post) = trimChars mid := by
  unfold trimChars
  rw [List.append_assoc, dropWhile_space_append hpre]
  congr 1
  have hrev : ∀ c ∈ post.reverse, isJsSpace c = true := fun c hc =>
    hpost c (List.mem_reverse.mp hc)
  induction mid with
  | nil =>
    simp only [List.nil_append, List.dropWhile_nil, List.reverse_nil]
    rw [dropWhile_space_all hpost]
    rfl
  | cons c cs ih =>
    by_cases hc : isJsSpace c = true
    · simpa [List.dropWhile_cons, hc] using ih
    · simp only [List.cons_append, List.dropWhile_cons, hc]
      simp only [Bool.false_eq_true, if_false, List.reverse_cons, List.reverse_append,
        List.append_assoc]
      rw [dropWhile_space_append hrev]


theorem secretText_str (word : String) : secretText (.str word) = jsTrim word := by
  unfold secretText JSVal.or JSVal.truthy
  by_cases h : word = ""
  · subst h; rfl
  · simp [h, JSVal.toStr]

theorem jsTrim_pad {pre post : List Char} (hpre : ∀ c ∈ pre, isJsSpace c = true)
    (hpost : ∀ c ∈ post, isJsSpace c = true) (w : List Char) :
    jsTrim ⟨pre ++ w ++ post⟩ = jsTrim ⟨w⟩ := by
  unfold jsTrim
  rw [trimChars_pad hpre hpost]

/-- C8: in a Playing room whose secret is set, `guess:submit` from any socket appends
exactly one guess `(socket, trim(text), correct)` where `correct` says whether the
lower-cased trimmed text equals the lower-cased secret; the room becomes Ended
exactly when the guess is correct and nothing else in it changes. In particular,
after `round:start` with a word, a guess of that word in another letter case and
with white space around it is recorded as correct and ends the round. -/
theorem guess_records (lower : String → String) :
    (∀ (rooms : Registry) (code : JSVal) (room : Room) (secret sid : String) (text : JSVal),
      rooms.get code = some room → room.status = .playing →
      room.secretWord = some secret →
      ∃ evs room', guessSubmit lower rooms sid code text = some (rooms.set code room', evs)
        ∧ room' = { room with
            guesses := room.guesses ++
              [{ guesser := sid, text := jsTrim text.toStr,
                 correct := decide (lower (jsTrim text.toStr) = lower secret) }],
            status := if lower (jsTrim text.toStr) = lower secret then .ended else .playing }
        ∧ (room'.status = .ended ↔ lower (jsTrim text.toStr) = lower secret)
        ∧ room'.questions = room.questions ∧ room'.turnOrder = room.turnOrder
        ∧ room'.turnIdx = room.turnIdx)
    ∧ (∀ (rooms : Registry) (code : JSVal) (room : Room) (thinker sid word : String)
        (pre w post : List Char),
      rooms.get code = some room → room.thinkerSocketId = some thinker →
      jsTrim word ≠ "" →
      (∀ c ∈ pre, isJsSpace c = true) → (∀ c ∈ post, isJsSpace c = true) →
      lower (jsTrim ⟨w⟩) = lower (jsTrim word) →
      ∃ rooms' evs room',
        guessSubmit lower (roundStart rooms thinker code (.str word)).1 sid code
            (.str ⟨pre ++ w ++ post⟩) = some (rooms', evs)
        ∧ rooms'.get code = some room'
        ∧ room'.status = .ended
        ∧ room'.guesses = [{ guesser := sid, text := jsTrim ⟨w⟩, correct := true }]) := by
  constructor
  · intro rooms code room secret sid text hg hs hw
    obtain ⟨evs, he⟩ := guessSubmit_eq lower hg hs hw sid text
    refine ⟨evs, guessedRoom lower room secret sid text, he, ?_, ?_, rfl, rfl, rfl⟩
    · simp [guessedRoom, newGuess, hs]
    · by_cases hc : lower (jsTrim text.toStr) = lower secret <;>
        simp [guessedRoom, newGuess, hc, hs]
  · intro rooms code room thinker sid word pre w post hg ht hne hpre hpost hl
    have hst : secretText (.str word) ≠ "" := by rw [secretText_str]; exact hne
    have hg1 : (roundStart rooms thinker code (.str word)).1.get code
        = some (startedRoom room thinker (.str word)) := by
      rw [roundStart_fst hg, OMap.get_set_self]
    have hs1 : (startedRoom room thinker (.str word)).status = .playing := by
      rw [startedRoom_status, if_pos ⟨ht, hst⟩]
    have hw1 : (startedRoom room thinker (.str word)).secretWord = some (jsTrim word) := by
      simp [startedRoom, ht, secretText_str, hne]
    have hgs1 : (startedRoom room thinker (.str word)).guesses = [] := by
      simp [startedRoom, ht, secretText_str, hne]
    obtain ⟨evs, he⟩ := guessSubmit_eq lower hg1 hs1 hw1 sid (.str ⟨pre ++ w ++ post⟩)
    have htrim : jsTrim (JSVal.str ⟨pre ++ w ++ post⟩).toStr = jsTrim ⟨w⟩ :=
      jsTrim_pad hpre hpost w
    refine ⟨_, evs, _, he, OMap.get_set_self _ _ _, ?_, ?_⟩
    · simp only [guessedRoom, newGuess, htrim, hl]
      simp
    · simp only [guessedRoom, newGuess, htrim, hl, hgs1]
      simp

/-- C8, witness: a wrong guess in the Playing demo room, and the scenario where
Alice starts with ` turtle ` and Bob guesses ` TuRtLe` followed by a line break. -/
theorem guess_records_witness :
    (∃ evs room', guessSubmit asciiLower [(demoCode, demoPlaying)] "B" demoCode (.str " Cat ")
          = some (OMap.set [(demoCode, demoPlaying)] demoCode room', evs)
        ∧ room' = { demoPlaying with
            guesses := demoPlaying.guesses ++
              [{ guesser := "B", text := jsTrim (JSVal.str " Cat ").toStr,
                 correct := decide (asciiLower (jsTrim (JSVal.str " Cat ").toStr)
                   = asciiLower "turtle") }],
            status := if asciiLower (jsTrim (JSVal.str " Cat ").toStr) = asciiLower "turtle"
              then .ended else .playing }
        ∧ (room'.status = .ended
            ↔ asciiLower (jsTrim (JSVal.str " Cat ").toStr) = asciiLower "turtle")
        ∧ room'.questions = demoPlaying.questions ∧ room'.turnOrder = demoPlaying.turnOrder
        ∧ room'.turnIdx = demoPlaying.turnIdx)
    ∧ (∃ rooms' evs room',
        guessSubmit asciiLower
            (roundStart [(demoCode, demoWaiting)] "A" demoCode (.str " turtle ")).1 "B" demoCode
            (.str ⟨" ".data ++ "TuRtLe".data ++ " \n".data⟩) = some (rooms', evs)
        ∧ rooms'.get demoCode = some room'
        ∧ room'.status = .ended
        ∧ room'.guesses = [{ guesser := "B", text := jsTrim ⟨"TuRtLe".data⟩, correct := true }]) :=
  ⟨(guess_records asciiLower).1 [(demoCode, demoPlaying)] demoCode demoPlaying "turtle" "B"
      (.str " Cat ") (by decide) (by decide) (by decide),
    (guess_records asciiLower).2 [(demoCode, demoWaiting)] demoCode demoWaiting "A" "B"
      " turtle " " ".data "TuRtLe".data " \n".data (by decide) (by decide) (by decide)
      (by decide) (by decide) (by decide)⟩


/-- A number payload is turned into text by `String`: the Thinker starts with the
number `1e21`, whose text is `1e+21`; that text is the stored secret, Bob's question
with the same number has that text, and his guess `1e+21` is correct. -/
theorem number_payload_text :
    roomAfter (run asciiLower []
        [.create "A" demoCode (.str "Alice"), .join "B" demoCode (.str "Bob"),
         .start "A" demoCode (.num 1000000000000000000000 "1e+21"),
         .ask "B" demoCode (.num 1000000000000000000000 "1e+21"),
         .guess "B" demoCode (.str "1e+21")]) demoCode
      = some { demoPlaying with
          status := .ended, secretWord := some "1e+21",
          questions := [{ id := 1, asker := "B", text := "1e+21", answer := .null }],
          guesses := [{ guesser := "B", text := "1e+21", correct := true }] } := by
  decide

/-! ## C9: disconnection -/

/-- C9: when socket `sid` disconnects, a room that had `sid` among its players is
still in the registry exactly when `sid` is not its Thinker. The Thinker's room is
gone (a lookup of its code finds nothing); a room where `sid` was another player
stays, with the same status and every other field, and without `sid` in `players`. -/
theorem disconnect_keeps_room_iff {rooms : Registry} (hwf : rooms.WF) {code : JSVal}
    {room : Room} (hg : rooms.get code = some room) {sid : String}
    (hp : room.players.has sid = true) :
    ((disconnect rooms sid).1.has code = true ↔ room.thinkerSocketId ≠ some sid)
    ∧ (room.thinkerSocketId = some sid → (disconnect rooms sid).1.get code = none)
    ∧ (room.thinkerSocketId ≠ some sid →
        ∃ room', (disconnect rooms sid).1.get code = some room'
          ∧ room'.status = room.status
          ∧ room'.players.has sid = false
          ∧ room' = { room with players := room.players.delete sid }) := by
  have hget := @disconnect_get sid rooms hwf code room hg
  rw [if_neg (by simp [hp])] at hget
  by_cases ht : room.thinkerSocketId = some sid
  · rw [if_pos ht.symm] at hget
    refine ⟨⟨fun h => ?_, fun h => absurd ht h⟩, fun _ => hget, fun h => absurd ht h⟩
    simp [OMap.has, hget] at h
  · rw [if_neg (fun h => ht h.symm)] at hget
    refine ⟨⟨fun _ => ht, fun _ => by simp [OMap.has, hget]⟩, fun h => absurd h ht,
      fun _ => ⟨leftRoom room sid, hget, rfl, OMap.has_delete_self _ _, rfl⟩⟩

/-- C9, witness: Alice disconnects; her own room `ABCD` is deleted and the room
`WXYZ`, where she was a Guesser, stays without her. -/
theorem disconnect_keeps_room_iff_witness :
    (((disconnect demoTwoRooms "A").1.has demoCode = true
        ↔ demoPlaying.thinkerSocketId ≠ some "A")
      ∧ (demoPlaying.thinkerSocketId = some "A" →
          (disconnect demoTwoRooms "A").1.get demoCode = none)
      ∧ (demoPlaying.thinkerSocketId ≠ some "A" →
          ∃ room', (disconnect demoTwoRooms "A").1.get demoCode = some room'
            ∧ room'.status = demoPlaying.status
            ∧ room'.players.has "A" = false
            ∧ room' = { demoPlaying with players := demoPlaying.players.delete "A" }))
    ∧ (disconnect demoTwoRooms "A").1.get demoCode = none
    ∧ ((disconnect demoTwoRooms "A").1.get (.str "WXYZ")).map (fun r => r.players.keys)
        = some ["Z"] :=
  ⟨@disconnect_keeps_room_iff demoTwoRooms (by decide) demoCode demoPlaying (by decide) "A"
      (by decide), by decide, by decide⟩

/-! ## C10: a successful `round:start` -/

/-- C10: when the Thinker sends `round:start` with a secret whose trimmed text is not
empty, the room becomes Playing with that trimmed text as `secretWord` (for a
string secret, its `trim`), no questions, no guesses, `turnIdx = 0`, and `turnOrder`
the keys of `players` in insertion order without the Thinker; with one entry per
key in `players`, `turnOrder` has no duplicate and holds exactly the other players. -/
theorem start_success {rooms : Registry} {code : JSVal} {room : Room}
    (hg : rooms.get code = some room) {sid : String}
    (ht : room.thinkerSocketId = some sid) {secretWord : JSVal}
    (hne : secretText secretWord ≠ "") :
    ∃ room', (roundStart rooms sid code secretWord).1.get code = some room'
      ∧ room'.status = .playing
      ∧ room'.secretWord = some (secretText secretWord)
      ∧ (∀ s, secretWord = .str s → room'.secretWord = some (jsTrim s))
      ∧ room'.questions = [] ∧ room'.guesses = [] ∧ room'.turnIdx = 0
      ∧ room'.turnOrder = room.players.keys.filter (fun id => decide (id ≠ sid))
      ∧ room'.players = room.players ∧ room'.thinkerSocketId = some sid
      ∧ (room.players.WF →
          room'.turnOrder.Nodup
            ∧ ∀ h, h ∈ room'.turnOrder ↔ (h ∈ room.players.keys ∧ h ≠ sid)) := by
  have hfilter : room.players.keys.filter (fun id => decide (some id ≠ room.thinkerSocketId))
      = room.players.keys.filter (fun id => decide (id ≠ sid)) := by
    apply List.filter_congr
    intro x _
    simp [ht]
  have hroom : startedRoom room sid secretWord
      = { room with
          secretWord := some (secretText secretWord), status := .playing, questions := [],
          guesses := [],
          turnOrder := room.players.keys.filter (fun id => decide (id ≠ sid)),
          turnIdx := 0 } := by
    unfold startedRoom
    rw [if_neg (by simp [ht]), if_neg hne, hfilter]
  refine ⟨startedRoom room sid secretWord, ?_, ?_⟩
  · rw [roundStart_fst hg, OMap.get_set_self]
  · rw [hroom]
    refine ⟨rfl, rfl, ?_, rfl, rfl, rfl, rfl, rfl, ht, ?_⟩
    · intro s hs
      subst hs
      simp [secretText_str]
    · intro hwf
      refine ⟨List.Nodup.filter _ hwf, fun h => ?_⟩
      simp [List.mem_filter]

/-- C10, witness: Alice starts the waiting demo room with the secret ` turtle `. -/
theorem start_success_witness :
    ∃ room', (roundStart [(demoCode, demoWaiting)] "A" demoCode (.str " turtle ")).1.get demoCode
        = some room'
      ∧ room'.status = .playing
      ∧ room'.secretWord = some (secretText (.str " turtle "))
      ∧ (∀ s, JSVal.str " turtle " = .str s → room'.secretWord = some (jsTrim s))
      ∧ room'.questions = [] ∧ room'.guesses = [] ∧ room'.turnIdx = 0
      ∧ room'.turnOrder = demoWaiting.players.keys.filter (fun id => decide (id ≠ "A"))
      ∧ room'.players = demoWaiting.players ∧ room'.thinkerSocketId = some "A"
      ∧ (demoWaiting.players.WF →
          room'.turnOrder.Nodup
            ∧ ∀ h, h ∈ room'.turnOrder ↔ (h ∈ demoWaiting.players.keys ∧ h ≠ "A")) :=
  @start_success [(demoCode, demoWaiting)] demoCode demoWaiting (by decide) "A" (by decide)
    (.str " turtle ") (by decide)


/-! ## C11: what a successful `question:ask` changes -/

/-- C11: when `question:ask` succeeds (the room is Playing, the caller holds the turn and
the budget is not used up), the stored room is the old one with one question appended
at the end: its `id` is the old number of questions plus one, its asker the caller, its
text the trimmed text and its answer `null`. The earlier questions, `turnIdx`,
`turnOrder`, `status`, `guesses` and `players` are the same, and so is every other room. -/
theorem ask_appends {rooms : Registry} {code : JSVal} {room : Room}
    (hg : rooms.get code = some room) {sid : String} (text : JSVal)
    (hs : room.status = .playing) (ht : room.turnOrder[room.turnIdx]? = some sid)
    (hb : room.questions.length < room.maxQuestions) :
    ∃ room', (questionAsk rooms sid code text).1 = rooms.set code room'
      ∧ (questionAsk rooms sid code text).1.get code = some room'
      ∧ room'.questions = room.questions ++
          [{ id := room.questions.length + 1, asker := sid, text := jsTrim text.toStr,
             answer := .null }]
      ∧ room'.turnIdx = room.turnIdx ∧ room'.turnOrder = room.turnOrder
      ∧ room'.status = room.status ∧ room'.guesses = room.guesses
      ∧ room'.players = room.players := by
  have hc : canAsk room sid := ⟨hs, ht, hb⟩
  have hroom : askedRoom room sid text
      = { room with questions := room.questions ++ [newQuestion room sid text] } := by
    unfold askedRoom; rw [if_pos hc]
  refine ⟨askedRoom room sid text, questionAsk_fst hg sid text, ?_, ?_⟩
  · rw [questionAsk_fst hg, OMap.get_set_self]
  · rw [hroom]
    exact ⟨rfl, rfl, rfl, rfl, rfl, rfl⟩

/-- C11, witness: Bob's first question in the Playing demo room. -/
theorem ask_appends_witness :
    ∃ room', (questionAsk [(demoCode, demoPlaying)] "B" demoCode (.str " Is it alive? ")).1
        = OMap.set [(demoCode, demoPlaying)] demoCode room'
      ∧ (questionAsk [(demoCode, demoPlaying)] "B" demoCode (.str " Is it alive? ")).1.get
          demoCode = some room'
      ∧ room'.questions = demoPlaying.questions ++
          [{ id := demoPlaying.questions.length + 1, asker := "B",
             text := jsTrim (JSVal.str " Is it alive? ").toStr, answer := .null }]
      ∧ room'.turnIdx = demoPlaying.turnIdx ∧ room'.turnOrder = demoPlaying.turnOrder
      ∧ room'.status = demoPlaying.status ∧ room'.guesses = demoPlaying.guesses
      ∧ room'.players = demoPlaying.players :=
  @ask_appends [(demoCode, demoPlaying)] demoCode demoPlaying (by decide) "B"
    (.str " Is it alive? ") (by decide) (by decide) (by decide)

/-! ## C12: what `question:answer` changes -/

theorem answerFirst_ids (qs : List Question) (id a : JSVal) :
    (answerFirst qs id a).map (fun q => q.id) = qs.map (fun q => q.id) := by
  induction qs with
  | nil => rfl
  | cons x rest ih => by_cases h : id.strictEqNat x.id = true <;> simp [answerFirst, h, ih]

theorem answerFirst_split {qs : List Question} {id : JSVal} (a : JSVal)
    (h : ∃ q ∈ qs, id.strictEqNat q.id = true) :
    ∃ pre q post, qs = pre ++ q :: post ∧ (∀ x ∈ pre, id.strictEqNat x.id = false)
      ∧ id.strictEqNat q.id = true
      ∧ answerFirst qs id a = pre ++ { q with answer := a } :: post := by
  induction qs with
  | nil => obtain ⟨q, hq, _⟩ := h; cases hq
  | cons x rest ih =>
    by_cases hx : id.strictEqNat x.id = true
    · exact ⟨[], x, rest, rfl, by simp, hx, by simp [answerFirst, hx]⟩
    · have h' : ∃ q ∈ rest, id.strictEqNat q.id = true := by
        obtain ⟨q, hq, he⟩ := h
        rcases List.mem_cons.mp hq with h1 | h1
        · subst h1; exact absurd he hx
        · exact ⟨q, h1, he⟩
      obtain ⟨pre, q, post, h1, h2, h3, h4⟩ := ih h'
      refine ⟨x :: pre, q, post, by simp [h1], ?_, h3, by simp [answerFirst, hx, h4]⟩
      intro y hy
      rcases List.mem_cons.mp hy with h5 | h5
      · subst h5; simpa using hx
      · exact h2 y h5

theorem answeredRoom_fields {room : Room} {sid : String} {id : JSVal} (answer : JSVal)
    (ht : room.thinkerSocketId = some sid)
    (hq : ∃ q ∈ room.questions, id.strictEqNat q.id = true) :
    (answeredRoom room sid id answer).questions = answerFirst room.questions id answer
      ∧ (answeredRoom room sid id answer).turnIdx
          = (if room.turnOrder.length > 0 then (room.turnIdx + 1) % room.turnOrder.length
             else room.turnIdx)
      ∧ (answeredRoom room sid id answer).turnOrder = room.turnOrder
      ∧ (answeredRoom room sid id answer).thinkerSocketId = room.thinkerSocketId
      ∧ (answeredRoom room sid id answer).players = room.players
      ∧ (answeredRoom room sid id answer).guesses = room.guesses := by
  obtain ⟨q, hf⟩ := find_isSome_of_mem hq
  unfold answeredRoom
  rw [if_neg (by simp [ht]), hf]
  by_cases hl : room.turnOrder.length > 0 <;>
    by_cases hm : room.maxQuestions ≤ (answerFirst room.questions id answer).length <;>
    simp [hl, hm]

theorem run_answers (lower : String → String) (sid : String) (code : JSVal)
    (answers : List (JSVal × JSVal)) :
    ∀ {rooms : Registry} {room : Room}, rooms.get code = some room →
      room.thinkerSocketId = some sid → room.turnOrder ≠ [] →
      (∀ p ∈ answers, ∃ q ∈ room.questions, p.1.strictEqNat q.id = true) →
      ∃ rooms' room',
        run lower rooms (answers.map (fun p => Op.answer sid code p.1 p.2)) = some rooms'
        ∧ rooms'.get code = some room'
        ∧ room'.turnOrder = room.turnOrder
        ∧ room'.turnIdx % room.turnOrder.length
            = (room.turnIdx + answers.length) % room.turnOrder.length
        ∧ (room.turnIdx < room.turnOrder.length → room'.turnIdx < room.turnOrder.length) := by
  induction answers with
  | nil =>
    intro rooms room hg _ _ _
    exact ⟨rooms, room, rfl, hg, rfl, rfl, id⟩
  | cons p ps ih =>
    intro rooms room hg ht hne hq
    have hq0 := hq p (List.mem_cons_self _ _)
    obtain ⟨f1, f2, f3, f4, _, _⟩ := answeredRoom_fields p.2 ht hq0
    have hl : room.turnOrder.length > 0 := List.length_pos.mpr hne
    rw [if_pos hl] at f2
    have hg1 : (questionAnswer rooms sid code p.1 p.2).1.get code
        = some (answeredRoom room sid p.1 p.2) := by
      rw [questionAnswer_fst hg, OMap.get_set_self]
    have hq1 : ∀ p' ∈ ps, ∃ q ∈ (answeredRoom room sid p.1 p.2).questions,
        p'.1.strictEqNat q.id = true := by
      intro p' hp'
      obtain ⟨q, hqm, hqe⟩ := hq p' (List.mem_cons_of_mem _ hp')
      have hmem : q.id ∈ (answeredRoom room sid p.1 p.2).questions.map (fun q => q.id) := by
        rw [f1, answerFirst_ids]
        exact List.mem_map.mpr ⟨q, hqm, rfl⟩
      obtain ⟨q', hq'm, hq'e⟩ := List.mem_map.mp hmem
      exact ⟨q', hq'm, by rw [hq'e]; exact hqe⟩
    obtain ⟨rooms', room', h1, h2, h3, h4, h5⟩ :=
      ih hg1 (f4.trans ht) (by rw [f3]; exact hne) hq1
    refine ⟨rooms', room', ?_, h2, h3.trans f3, ?_, ?_⟩
    · simpa [run, handle] using h1
    · rw [f3, f2] at h4
      rw [h4, List.length_cons]
      rw [Nat.add_mod, Nat.mod_mod, ← Nat.add_mod]
      congr 1
      omega
    · intro _
      rw [f3, f2] at h5
      exact h5 (Nat.mod_lt _ hl)

/-- C12: in a room with a non-empty `turnOrder`, when the Thinker answers a question id
that exists, the first question with that id gets the given answer (the others are
untouched) and `turnIdx` becomes `(turnIdx + 1) % turnOrder.length`; with a single
Guesser the turn is that Guesser's again, and after `turnOrder.length` such answers a
valid `turnIdx` is back at its value. When no question has the id, nothing changes and
nothing is emitted. -/
theorem answer_advances_turn (lower : String → String) {rooms : Registry} {code : JSVal}
    {room : Room} (hg : rooms.get code = some room) {sid : String}
    (ht : room.thinkerSocketId = some sid) (hne : room.turnOrder ≠ []) :
    (∀ id answer : JSVal, (∃ q ∈ room.questions, id.strictEqNat q.id = true) →
      ∃ room', (questionAnswer rooms sid code id answer).1.get code = some room'
        ∧ (∃ pre q post, room.questions = pre ++ q :: post
            ∧ (∀ x ∈ pre, id.strictEqNat x.id = false) ∧ id.strictEqNat q.id = true
            ∧ room'.questions = pre ++ { q with answer := answer } :: post)
        ∧ room'.turnIdx = (room.turnIdx + 1) % room.turnOrder.length
        ∧ room'.turnOrder = room.turnOrder
        ∧ (∀ g, room.turnOrder = [g] → room'.turnOrder[room'.turnIdx]? = some g))
    ∧ (∀ answers : List (JSVal × JSVal), answers.length = room.turnOrder.length →
        (∀ p ∈ answers, ∃ q ∈ room.questions, p.1.strictEqNat q.id = true) →
        room.turnIdx < room.turnOrder.length →
        ∃ rooms' room',
          run lower rooms (answers.map (fun p => Op.answer sid code p.1 p.2)) = some rooms'
          ∧ rooms'.get code = some room'
          ∧ room'.turnIdx = room.turnIdx ∧ room'.turnOrder = room.turnOrder)
    ∧ (∀ id answer : JSVal, (∀ q ∈ room.questions, id.strictEqNat q.id = false) →
        questionAnswer rooms sid code id answer = (rooms, [])) := by
  have hl : room.turnOrder.length > 0 := List.length_pos.mpr hne
  refine ⟨fun id answer hq => ?_, fun answers hlen hq hi => ?_, fun id answer hq => ?_⟩
  · obtain ⟨f1, f2, f3, _, _, _⟩ := answeredRoom_fields answer ht hq
    rw [if_pos hl] at f2
    obtain ⟨pre, q, post, s1, s2, s3, s4⟩ := answerFirst_split answer hq
    refine ⟨answeredRoom room sid id answer, ?_, ⟨pre, q, post, s1, s2, s3, f1.trans s4⟩,
      f2, f3, fun g hg1 => ?_⟩
    · rw [questionAnswer_fst hg, OMap.get_set_self]
    · rw [f3, f2, hg1]
      simp [Nat.mod_one]
  · obtain ⟨rooms', room', h1, h2, h3, h4, h5⟩ := run_answers lower sid code answers hg ht hne hq
    refine ⟨rooms', room', h1, h2, ?_, h3⟩
    rw [hlen, Nat.add_mod_right, Nat.mod_eq_of_lt (h5 hi), Nat.mod_eq_of_lt hi] at h4
    exact h4
  · have hf : room.questions.find? (fun x => id.strictEqNat x.id) = none := by
      rw [List.find?_eq_none]
      intro x hx
      simpa using hq x hx
    simp [questionAnswer, hg, ht, hf]

/-- C12, witness: Alice answers Bob's pending question 1 in the demo room. Bob is the
only Guesser, so the turn is his again and one answer brings `turnIdx` back; an answer
to the unknown id 7 changes nothing. -/
theorem answer_advances_turn_witness :
    (∃ room', (questionAnswer [(demoCode, demoOnePending)] "A" demoCode (.num 1 "1")
          (.str "yes")).1.get demoCode = some room'
        ∧ (∃ pre q post, demoOnePending.questions = pre ++ q :: post
            ∧ (∀ x ∈ pre, (JSVal.num 1 "1").strictEqNat x.id = false)
            ∧ (JSVal.num 1 "1").strictEqNat q.id = true
            ∧ room'.questions = pre ++ { q with answer := .str "yes" } :: post)
        ∧ room'.turnIdx = (demoOnePending.turnIdx + 1) % demoOnePending.turnOrder.length
        ∧ room'.turnOrder = demoOnePending.turnOrder
        ∧ (∀ g, demoOnePending.turnOrder = [g] → room'.turnOrder[room'.turnIdx]? = some g))
    ∧ (∃ rooms' room',
          run asciiLower [(demoCode, demoOnePending)]
              ([(JSVal.num 1 "1", JSVal.str "yes")].map (fun p => Op.answer "A" demoCode p.1 p.2))
            = some rooms'
          ∧ rooms'.get demoCode = some room'
          ∧ room'.turnIdx = demoOnePending.turnIdx
          ∧ room'.turnOrder = demoOnePending.turnOrder)
    ∧ questionAnswer [(demoCode, demoOnePending)] "A" demoCode (.num 7 "7") (.str "no")
        = ([(demoCode, demoOnePending)], []) :=
  have h := @answer_advances_turn asciiLower [(demoCode, demoOnePending)] demoCode
    demoOnePending (by decide) "A" (by decide) (by decide)
  ⟨h.1 (.num 1 "1") (.str "yes") (by decide),
    h.2.1 [(.num 1 "1", .str "yes")] (by decide) (by decide) (by decide),
    h.2.2 (.num 7 "7") (.str "no") (by decide)⟩


/-! ## C13: the turn index -/

/-- C13: in every reachable registry a room with a non-empty `turnOrder` has
`turnIdx < turnOrder.length`, so `turnOrder[turnIdx]` is a handle; and in any room with
an empty `turnOrder`, `question:ask` from any socket leaves the registry unchanged. -/
theorem turn_index_valid (lower : String → String) :
    (∀ (rooms : Registry) (code : JSVal) (r : Room), Reachable lower rooms →
      rooms.get code = some r → r.turnOrder ≠ [] →
      r.turnIdx < r.turnOrder.length ∧ ∃ h, r.turnOrder[r.turnIdx]? = some h)
    ∧ (∀ (rooms : Registry) (code : JSVal) (room : Room) (sid : String) (text : JSVal),
      rooms.get code = some room → room.turnOrder = [] →
      (questionAsk rooms sid code text).1 = rooms) := by
  constructor
  · intro rooms code r hreach hg hne
    have hlt := (regOK_get (reachable_ok lower hreach) hg).turn_valid hne
    exact ⟨hlt, r.turnOrder[r.turnIdx], List.getElem?_eq_getElem hlt⟩
  · intro rooms code room sid text hg hempty
    rw [questionAsk_fst hg]
    have hc : ¬ canAsk room sid := by
      rintro ⟨_, ht, _⟩
      simp [hempty] at ht
    unfold askedRoom
    rw [if_neg hc]
    exact OMap.set_get_self hg

/-- C13, witness: the Playing demo room has a valid turn index, and in the room that
Alice started alone nobody's ask is taken. -/
theorem turn_index_valid_witness :
    (demoPlaying.turnIdx < demoPlaying.turnOrder.length
      ∧ ∃ h, demoPlaying.turnOrder[demoPlaying.turnIdx]? = some h)
    ∧ (questionAsk [(demoCode, demoAlone)] "A" demoCode (.str "Is it alive?")).1
        = [(demoCode, demoAlone)] :=
  ⟨(turn_index_valid asciiLower).1 [(demoCode, demoPlaying)] demoCode demoPlaying
      (reachable_run asciiLower demoSetup Reachable.init (by decide)) (by decide) (by decide),
    (turn_index_valid asciiLower).2 [(demoCode, demoAlone)] demoCode demoAlone "A"
      (.str "Is it alive?") (by decide) (by decide)⟩

/-! ## C14: what changes `turnOrder` -/

/-- C14: one event changes the `turnOrder` of a stored room only if it is a
`round:start` from the room's Thinker with a non-empty secret; `room:join`,
`question:ask`, `question:answer`, `guess:submit` and `disconnect` leave it as it
was. In particular, when a player other than the Thinker disconnects, the room stays
with the same `turnOrder`, the departed handle included. -/
theorem turnOrder_fixed (lower : String → String) {rooms : Registry} (hwf : rooms.WF)
    {op : Op} {res : Registry × List Effect} (hr : handle lower rooms op = some res)
    {code : JSVal} {r : Room} (hg : rooms.get code = some r) :
    (∀ r', res.1.get code = some r' →
      r'.turnOrder = r.turnOrder
        ∨ ∃ sid sw, op = .start sid code sw ∧ r.thinkerSocketId = some sid
            ∧ secretText sw ≠ "")
    ∧ (∀ sid, op = .disconnect sid → r.thinkerSocketId ≠ some sid →
        ∃ r', res.1.get code = some r' ∧ r'.turnOrder = r.turnOrder) := by
  constructor
  · intro r' hg'
    have hstep := handle_roomStep lower hwf hr hg hg'
    cases hstep with
    | same => exact Or.inl rfl
    | join sid name =>
      left; unfold joinedRoom; split <;> rfl
    | start sid sw =>
      by_cases hc : r.thinkerSocketId = some sid ∧ secretText sw ≠ ""
      · exact Or.inr ⟨sid, sw, rfl, hc.1, hc.2⟩
      · left
        unfold startedRoom
        by_cases ht : some sid = r.thinkerSocketId
        · have he : secretText sw = "" := by
            by_contra he; exact hc ⟨ht.symm, he⟩
          simp [ht, he]
        · simp [ht]
    | ask sid text =>
      left; unfold askedRoom; split <;> rfl
    | answer sid id answer =>
      left
      unfold answeredRoom
      split
      · rfl
      · split
        · rfl
        · by_cases hl : r.turnOrder.length > 0 <;>
            by_cases hm : r.maxQuestions ≤ (answerFirst r.questions id answer).length <;>
            simp [hl, hm]
    | guess => exact Or.inl rfl
    | leave => exact Or.inl rfl
  · intro sid hop hnt
    subst hop
    simp only [handle, Option.some.injEq] at hr
    subst hr
    rw [disconnect_get hwf hg]
    have hnt' : ¬ some sid = r.thinkerSocketId := fun h => hnt h.symm
    by_cases hp : r.players.has sid = false
    · exact ⟨r, by rw [if_pos hp], rfl⟩
    · exact ⟨leftRoom r sid, by rw [if_neg hp, if_neg hnt'], rfl⟩

/-- C14, witness: Bob disconnects from the Playing demo room; the room stays and Bob's
handle is still its `turnOrder`. -/
theorem turnOrder_fixed_witness :
    (∃ r', (disconnect [(demoCode, demoPlaying)] "B").1.get demoCode = some r'
        ∧ r'.turnOrder = demoPlaying.turnOrder)
    ∧ (demoPlaying.turnOrder = ["B"])
    ∧ ((leftRoom demoPlaying "B").turnOrder = demoPlaying.turnOrder
        ∨ ∃ sid sw, Op.disconnect "B" = .start sid demoCode sw
            ∧ demoPlaying.thinkerSocketId = some sid ∧ secretText sw ≠ "") :=
  have h := @turnOrder_fixed asciiLower [(demoCode, demoPlaying)] (by decide)
    (.disconnect "B") (disconnect [(demoCode, demoPlaying)] "B") rfl demoCode demoPlaying
    (by decide)
  ⟨h.2 "B" rfl (by decide), by decide, h.1 (leftRoom demoPlaying "B") (by decide)⟩


/-! ## C15: the Thinker among the players -/

theorem handle_created (lower : String → String) {rooms : Registry} {op : Op}
    {res : Registry × List Effect} (hr : handle lower rooms op = some res)
    {code : JSVal} {r' : Room} (hg : rooms.get code = none)
    (hg' : res.1.get code = some r') :
    ∃ sid name, op = .create sid code name ∧ r' = createdRoom sid code name := by
  have stay : ∀ {c : JSVal} {x : Room}, (rooms.set c x).get code = some r' →
      rooms.get c ≠ none → False := by
    intro c x h hc
    by_cases he : c = code
    · subst he; exact hc hg
    · rw [OMap.get_set_ne _ _ he, hg] at h; cases h
  have same : rooms.get code = some r' → ∃ sid name, op = .create sid code name
      ∧ r' = createdRoom sid code name := by
    intro h; rw [hg] at h; cases h
  cases op with
  | create sid c name =>
    simp only [handle, Option.some.injEq] at hr
    subst hr
    cases hc : rooms.get c with
    | none =>
      rw [roomCreate_fst hc] at hg'
      by_cases he : c = code
      · subst he
        rw [OMap.get_set_self] at hg'
        cases hg'
        exact ⟨sid, name, rfl, rfl⟩
      · rw [OMap.get_set_ne _ _ he, hg] at hg'; cases hg'
    | some x =>
      rw [roomCreate_taken (by simp [OMap.has, hc])] at hg'
      exact same hg'
  | join sid c name =>
    simp only [handle, Option.some.injEq] at hr
    subst hr
    cases hc : rooms.get c with
    | none => exact same (by simpa [roomJoin, hc] using hg')
    | some x =>
      rw [roomJoin_fst hc] at hg'
      exact (stay hg' (by simp [hc])).elim
  | start sid c sw =>
    simp only [handle, Option.some.injEq] at hr
    subst hr
    cases hc : rooms.get c with
    | none => exact same (by simpa [roundStart, hc] using hg')
    | some x =>
      rw [roundStart_fst hc] at hg'
      exact (stay hg' (by simp [hc])).elim
  | ask sid c text =>
    simp only [handle, Option.some.injEq] at hr
    subst hr
    cases hc : rooms.get c with
    | none => exact same (by simpa [questionAsk, hc] using hg')
    | some x =>
      rw [questionAsk_fst hc] at hg'
      exact (stay hg' (by simp [hc])).elim
  | answer sid c id answer =>
    simp only [handle, Option.some.injEq] at hr
    subst hr
    cases hc : rooms.get c with
    | none => exact same (by simpa [questionAnswer, hc] using hg')
    | some x =>
      rw [questionAnswer_fst hc] at hg'
      exact (stay hg' (by simp [hc])).elim
  | guess sid c text =>
    simp only [handle] at hr
    cases hc : rooms.get c with
    | none =>
      rw [guessSubmit_idle lower (by simp [hc])] at hr
      cases hr; exact same hg'
    | some x =>
      by_cases hs : x.status = .playing
      · cases hw : x.secretWord with
        | none => simp [guessSubmit, hc, hs, hw] at hr
        | some secret =>
          obtain ⟨evs, he⟩ := guessSubmit_eq lower hc hs hw sid text
          rw [he] at hr
          cases hr
          exact (stay hg' (by simp [hc])).elim
      · rw [guessSubmit_idle lower (by intro y hy; rw [hc] at hy; cases hy; exact hs)] at hr
        cases hr; exact same hg'
  | disconnect sid =>
    simp only [handle, Option.some.injEq] at hr
    subst hr
    rw [disconnect_get_none hg] at hg'
    cases hg'

theorem reachable_rooms_induct (lower : String → String) (P : JSVal → Room → Prop)
    (hcreate : ∀ sid code name, P code (createdRoom sid code name))
    (hstep : ∀ code op r r', RoomOK code r → P code r → RoomStep lower code op r r' →
      P code r')
    {rooms : Registry} (h : Reachable lower rooms) : ∀ e ∈ rooms, P e.1 e.2 := by
  induction h with
  | init => intro e he; cases he
  | @step rooms op res hreach hr ih =>
    intro e he
    have hok := reachable_ok lower hreach
    have hok' := regOK_handle lower hok hr
    have hg' : res.1.get e.1 = some e.2 := OMap.get_of_mem hok'.1 he
    cases hg : rooms.get e.1 with
    | none =>
      obtain ⟨sid, name, _, h2⟩ := handle_created lower hr hg hg'
      rw [h2]; exact hcreate sid e.1 name
    | some r =>
      have hm := OMap.mem_of_get hg
      exact hstep e.1 op r e.2 (hok.2 _ hm) (ih _ hm) (handle_roomStep lower hok.1 hr hg hg')

/-- Only the entry keyed by `thinkerSocketId` can have the role `thinker`. -/
theorem reachable_roles (lower : String → String) {rooms : Registry}
    (h : Reachable lower rooms) {code : JSVal} {r : Room} (hg : rooms.get code = some r) :
    ∀ e ∈ r.players, e.2.role = .thinker → some e.1 = r.thinkerSocketId := by
  refine reachable_rooms_induct lower
    (fun _ r => ∀ e ∈ r.players, e.2.role = .thinker → some e.1 = r.thinkerSocketId)
    ?_ ?_ h (code, r) (OMap.mem_of_get hg)
  · intro sid code name e he hrole
    simp only [createdRoom, List.mem_singleton] at he
    subst he; rfl
  · intro code op r r' _ hP hstep
    cases hstep with
    | same => exact hP
    | join sid name =>
      unfold joinedRoom
      split
      · exact hP
      · intro e he hrole
        rcases OMap.mem_set he with h1 | h1
        · exact hP e h1 hrole
        · subst h1; cases hrole
    | start sid sw =>
      unfold startedRoom
      split
      · exact hP
      · split <;> exact hP
    | ask sid text =>
      unfold askedRoom
      split <;> exact hP
    | answer sid id answer =>
      obtain hh : (answeredRoom r sid id answer).players = r.players
          ∧ (answeredRoom r sid id answer).thinkerSocketId = r.thinkerSocketId := by
        unfold answeredRoom
        split
        · exact ⟨rfl, rfl⟩
        · split
          · exact ⟨rfl, rfl⟩
          · by_cases hl : r.turnOrder.length > 0 <;>
              by_cases hm : r.maxQuestions ≤ (answerFirst r.questions id answer).length <;>
              simp [hl, hm]
      rw [hh.1, hh.2]; exact hP
    | guess => exact hP
    | leave sid _ _ _ =>
      intro e he hrole
      exact hP e (List.mem_of_mem_filter he) hrole

theorem filter_key_length_le_one {ν : Type} (p : String × ν → Bool) (t : String) :
    ∀ (l : List (String × ν)), (l.map Prod.fst).Nodup → (∀ e ∈ l, p e = true → e.1 = t) →
      (l.filter p).length ≤ 1 := by
  intro l
  induction l with
  | nil => intro _ _; simp
  | cons e rest ih =>
    intro hnd hp
    have hnd' : e.1 ∉ rest.map Prod.fst ∧ (rest.map Prod.fst).Nodup := by
      simpa using hnd
    have hrest : ∀ x ∈ rest, p x = true → x.1 = t := fun x hx =>
      hp x (List.mem_cons_of_mem _ hx)
    by_cases he : p e = true
    · have het : e.1 = t := hp e (List.mem_cons_self _ _) he
      have hnone : rest.filter p = [] := by
        rw [List.filter_eq_nil_iff]
        intro x hx hpx
        exact hnd'.1 (List.mem_map.mpr ⟨x, hx, (hrest x hx hpx).trans het.symm⟩)
      simp [List.filter_cons, he, hnone]
    · simpa [List.filter_cons, he] using ih hnd'.2 hrest

theorem OMap.get_delete_ne {κ ν : Type} [DecidableEq κ] (m : OMap κ ν) {k k' : κ}
    (h : k ≠ k') : OMap.get (OMap.delete m k) k' = OMap.get m k' := by
  induction m with
  | nil => rfl
  | cons e rest ih =>
    obtain ⟨k0, v0⟩ := e
    have ih' : OMap.get (List.filter (fun e => decide (e.1 ≠ k)) rest) k' = OMap.get rest k' := ih
    by_cases h0 : k0 = k
    · subst h0
      simpa [OMap.delete, OMap.get, List.filter_cons, h] using ih'
    · by_cases h1 : k0 = k'
      · subst h1
        simp [OMap.delete, OMap.get, List.filter_cons, h0]
      · simpa [OMap.delete, OMap.get, List.filter_cons, h0, h1] using ih'

theorem answeredRoom_players (r : Room) (sid : String) (id answer : JSVal) :
    (answeredRoom r sid id answer).players = r.players
      ∧ (answeredRoom r sid id answer).thinkerSocketId = r.thinkerSocketId := by
  unfold answeredRoom
  split
  · exact ⟨rfl, rfl⟩
  · split
    · exact ⟨rfl, rfl⟩
    · by_cases hl : r.turnOrder.length > 0 <;>
        by_cases hm : r.maxQuestions ≤ (answerFirst r.questions id answer).length <;>
        simp [hl, hm]

/-- The entry of socket `t` has the role `thinker` in the room under `code`, when that
room exists and `t` is its Thinker. -/
theorem thinker_entry_step (lower : String → String) {t : String} {code : JSVal}
    {rooms : Registry} (hwf : rooms.WF)
    (hQ : ∀ r, rooms.get code = some r → r.thinkerSocketId = some t →
      ∃ p, r.players.get t = some p ∧ p.role = .thinker)
    {op : Op} {res : Registry × List Effect} (hr : handle lower rooms op = some res)
    (hop : ∀ name, op ≠ .join t code name) :
    ∀ r', res.1.get code = some r' → r'.thinkerSocketId = some t →
      ∃ p, r'.players.get t = some p ∧ p.role = .thinker := by
  intro r' hg' ht'
  cases hg : rooms.get code with
  | none =>
    obtain ⟨sid, name, _, h2⟩ := handle_created lower hr hg hg'
    subst h2
    have hs : sid = t := by simpa [createdRoom] using ht'
    subst hs
    exact ⟨{ name := name, role := .thinker }, by simp [createdRoom, OMap.get], rfl⟩
  | some r =>
    have hQr := hQ r hg
    have hstep := handle_roomStep lower hwf hr hg hg'
    cases hstep with
    | same => exact hQr ht'
    | join sid name =>
      have hne : sid ≠ t := fun h => hop name (by rw [h])
      unfold joinedRoom at ht' ⊢
      split at ht'
      · rw [if_pos (by assumption)]; exact hQr ht'
      · rw [if_neg (by assumption)]
        obtain ⟨p, hp, hrole⟩ := hQr ht'
        exact ⟨p, by simpa [OMap.get_set_ne _ _ hne] using hp, hrole⟩
    | start sid sw =>
      have hh : (startedRoom r sid sw).players = r.players
          ∧ (startedRoom r sid sw).thinkerSocketId = r.thinkerSocketId := by
        unfold startedRoom
        split
        · exact ⟨rfl, rfl⟩
        · split <;> exact ⟨rfl, rfl⟩
      rw [hh.2] at ht'; rw [hh.1]; exact hQr ht'
    | ask sid text =>
      have hh : (askedRoom r sid text).players = r.players
          ∧ (askedRoom r sid text).thinkerSocketId = r.thinkerSocketId := by
        unfold askedRoom
        split <;> exact ⟨rfl, rfl⟩
      rw [hh.2] at ht'; rw [hh.1]; exact hQr ht'
    | answer sid id answer =>
      have hh := answeredRoom_players r sid id answer
      rw [hh.2] at ht'; rw [hh.1]; exact hQr ht'
    | guess => exact hQr ht'
    | leave sid _ _ hnt =>
      have ht : r.thinkerSocketId = some t := ht'
      have hne : sid ≠ t := fun h => hnt (by rw [ht, h])
      obtain ⟨p, hp, hrole⟩ := hQr ht
      exact ⟨p, by simpa [leftRoom, OMap.get_delete_ne _ hne] using hp, hrole⟩

theorem thinker_entry_run (lower : String → String) (t : String) (code : JSVal)
    (ops : List Op) :
    ∀ {rooms rooms' : Registry}, Reachable lower rooms →
      (∀ r, rooms.get code = some r → r.thinkerSocketId = some t →
        ∃ p, r.players.get t = some p ∧ p.role = .thinker) →
      run lower rooms ops = some rooms' → (∀ name, Op.join t code name ∉ ops) →
      ∀ r', rooms'.get code = some r' → r'.thinkerSocketId = some t →
        ∃ p, r'.players.get t = some p ∧ p.role = .thinker := by
  induction ops with
  | nil =>
    intro rooms rooms' _ hQ hrun _
    simp only [run, Option.some.injEq] at hrun
    subst hrun; exact hQ
  | cons op ops ih =>
    intro rooms rooms' hreach hQ hrun hno
    unfold run at hrun
    cases hh : handle lower rooms op with
    | none => simp [hh] at hrun
    | some res =>
      simp only [hh] at hrun
      have hop : ∀ name, op ≠ .join t code name := fun name h =>
        hno name (h ▸ List.mem_cons_self _ _)
      exact ih (Reachable.step hreach hh)
        (thinker_entry_step lower (reachable_ok lower hreach).1 hQ hh hop) hrun
        (fun name hm => hno name (List.mem_cons_of_mem _ hm))

theorem eq_singleton_of_mem_of_length_le_one {α : Type} {l : List α} {a : α}
    (hm : a ∈ l) (hl : l.length ≤ 1) : l = [a] := by
  match l, hm, hl with
  | [x], hm, _ =>
    have hx : a = x := by simpa using hm
    rw [hx]
  | _ :: _ :: _, _, hl => simp at hl

/-- C15, the counterexample: Alice creates the room and then sends `room:join` for it
herself; the reachable room has no player with the role `thinker`. -/
theorem thinker_role_overwritten :
    roomAfter (run asciiLower []
        [.create "A" demoCode (.str "Alice"), .join "A" demoCode (.str "Alice")]) demoCode
      = some demoSelfJoined
    ∧ demoSelfJoined.thinkerSocketId = some "A"
    ∧ thinkerPlayers demoSelfJoined = [] := by
  decide

/-- C15, as amended: in every reachable registry every room has a `thinkerSocketId`
that is a key of `players`, every player under another key has the role `guesser`, and
at most one player has the role `thinker`, keyed by `thinkerSocketId`. After a run from
the empty registry in which the Thinker's socket never sent `room:join` for the room's
code, the Thinker's entry has the role `thinker` and is the only such player; a
`room:join` from the Thinker's own socket for its Waiting room stores it as `guesser`. -/
theorem thinker_is_player (lower : String → String) :
    (∀ (rooms : Registry) (code : JSVal) (r : Room), Reachable lower rooms →
      rooms.get code = some r →
      ∃ t, r.thinkerSocketId = some t ∧ t ∈ r.players.keys
        ∧ (∀ e ∈ r.players, e.1 ≠ t → e.2.role = .guesser)
        ∧ (∀ e ∈ thinkerPlayers r, e.1 = t)
        ∧ (thinkerPlayers r).length ≤ 1)
    ∧ (∀ (ops : List Op) (rooms : Registry) (code : JSVal) (r : Room) (t : String),
      run lower [] ops = some rooms → rooms.get code = some r →
      r.thinkerSocketId = some t → (∀ name, Op.join t code name ∉ ops) →
      ∃ p, r.players.get t = some p ∧ p.role = .thinker ∧ thinkerPlayers r = [(t, p)])
    ∧ (∀ (rooms : Registry) (code : JSVal) (r : Room) (t : String) (name : JSVal),
      rooms.get code = some r → r.status = .waiting → r.thinkerSocketId = some t →
      ∃ r', (roomJoin rooms t code name).1.get code = some r'
        ∧ r'.thinkerSocketId = some t
        ∧ r'.players.get t = some { name := name, role := .guesser }) := by
  have part1 : ∀ (rooms : Registry) (code : JSVal) (r : Room), Reachable lower rooms →
      rooms.get code = some r →
      ∃ t, r.thinkerSocketId = some t ∧ t ∈ r.players.keys
        ∧ (∀ e ∈ r.players, e.1 ≠ t → e.2.role = .guesser)
        ∧ (∀ e ∈ thinkerPlayers r, e.1 = t)
        ∧ (thinkerPlayers r).length ≤ 1 := by
    intro rooms code r hreach hg
    have hok := regOK_get (reachable_ok lower hreach) hg
    have hroles := reachable_roles lower hreach hg
    obtain ⟨t, ht, hm⟩ := hok.thinker_in
    have hkey : ∀ e ∈ r.players, e.2.role = .thinker → e.1 = t := by
      intro e he hrole
      have := hroles e he hrole
      rw [ht] at this
      exact Option.some.inj this
    refine ⟨t, ht, hm, fun e he hne => ?_, fun e he => ?_, ?_⟩
    · cases hrole : e.2.role with
      | guesser => rfl
      | thinker => exact absurd (hkey e he hrole) hne
    · have h1 := List.mem_filter.mp he
      exact hkey e h1.1 (by simpa using h1.2)
    · exact filter_key_length_le_one _ t r.players hok.players_wf
        (fun e he hp => hkey e he (by simpa using hp))
  refine ⟨part1, ?_, ?_⟩
  · intro ops rooms code r t hrun hg ht hno
    obtain ⟨p, hp, hrole⟩ := thinker_entry_run lower t code ops Reachable.init
      (fun r h => by cases h) hrun hno r hg ht
    have hreach := reachable_run lower ops Reachable.init hrun
    obtain ⟨t', ht', _, _, _, hlen⟩ := part1 rooms code r hreach hg
    have hmem : (t, p) ∈ thinkerPlayers r :=
      List.mem_filter.mpr ⟨OMap.mem_of_get hp, by simpa using hrole⟩
    exact ⟨p, hp, hrole, eq_singleton_of_mem_of_length_le_one hmem hlen⟩
  · intro rooms code r t name hg hs ht
    refine ⟨joinedRoom r t name, ?_, ?_, ?_⟩
    · rw [roomJoin_fst hg, OMap.get_set_self]
    · simpa [joinedRoom, hs] using ht
    · simp [joinedRoom, hs, OMap.get_set_self]

/-- C15, witness: the demo room after Bob joined and the round started, where Alice
never joined her own room; and Alice joining the room she has just created. -/
theorem thinker_is_player_witness :
    (∃ t, demoPlaying.thinkerSocketId = some t ∧ t ∈ demoPlaying.players.keys
      ∧ (∀ e ∈ demoPlaying.players, e.1 ≠ t → e.2.role = .guesser)
      ∧ (∀ e ∈ thinkerPlayers demoPlaying, e.1 = t)
      ∧ (thinkerPlayers demoPlaying).length ≤ 1)
    ∧ (∃ p, demoPlaying.players.get "A" = some p ∧ p.role = .thinker
        ∧ thinkerPlayers demoPlaying = [("A", p)])
    ∧ (∃ r', (roomJoin [(demoCode, createdRoom "A" demoCode (.str "Alice"))] "A" demoCode
          (.str "Alice")).1.get demoCode = some r'
        ∧ r'.thinkerSocketId = some "A"
        ∧ r'.players.get "A" = some { name := .str "Alice", role := .guesser }) :=
  have h := thinker_is_player asciiLower
  ⟨h.1 [(demoCode, demoPlaying)] demoCode demoPlaying
      (reachable_run asciiLower demoSetup Reachable.init (by decide)) (by decide),
    h.2.1 demoSetup [(demoCode, demoPlaying)] demoCode demoPlaying "A" (by decide)
      (by decide) (by decide) (fun name hm => by simp [demoSetup] at hm),
    h.2.2 [(demoCode, createdRoom "A" demoCode (.str "Alice"))] demoCode
      (createdRoom "A" demoCode (.str "Alice")) "A" (.str "Alice") (by decide) (by decide)
      (by decide)⟩

/-! ## C16: `room:create` -/

theorem OMap.set_of_get_none {κ ν : Type} [DecidableEq κ] {m : OMap κ ν} {k : κ}
    (h : OMap.get m k = none) (v : ν) : OMap.set m k v = m ++ [(k, v)] := by
  induction m with
  | nil => rfl
  | cons e rest ih =>
    obtain ⟨k0, v0⟩ := e
    by_cases h0 : k0 = k
    · subst h0; simp [OMap.get] at h
    · simp only [OMap.get, h0, if_false] at h
      simp [OMap.set, h0, ih h]

/-- C16: `room:create` with a code that already has a room reports the error to the
caller and returns the registry as it was; with an unused code it adds exactly one
entry at the end of the registry, the Waiting room whose only player is the creator
with the role `thinker`, with `thinkerSocketId` the creator, no questions, guesses or
`turnOrder`, and `maxQuestions = 20`. -/
theorem create_room (sid : String) (code name : JSVal) :
    (∀ (rooms : Registry) (existing : Room), rooms.get code = some existing →
      roomCreate rooms sid code name
        = (rooms, [.reply sid (.systemError "Codice stanza già esistente")]))
    ∧ (∀ rooms : Registry, rooms.get code = none →
      roomCreate rooms sid code name
        = (rooms ++
            [(code,
              { code := code, status := .waiting,
                players := [(sid, { name := name, role := .thinker })],
                thinkerSocketId := some sid, secretWord := none,
                questions := [], guesses := [], turnOrder := [], turnIdx := 0,
                maxQuestions := 20 })],
           [.joinRoom sid code,
            .toRoom code (.roomState
              { code := code, status := .waiting,
                players := [{ id := sid, name := name, role := .thinker }],
                maxQuestions := 20 })])) := by
  constructor
  · intro rooms existing hg
    exact roomCreate_taken (by simp [OMap.has, hg]) sid name
  · intro rooms hg
    have h1 := roomCreate_fst hg sid name
    rw [OMap.set_of_get_none hg] at h1
    have h2 : (roomCreate rooms sid code name).2
        = [.joinRoom sid code,
            .toRoom code (.roomState
              { code := code, status := .waiting,
                players := [{ id := sid, name := name, role := .thinker }],
                maxQuestions := 20 })] := by
      simp [roomCreate, OMap.has, hg, createRoom, OMap.get_set_self, publicRoomState,
        getPlayers, OMap.set]
    exact Prod.ext h1 h2

/-- C16, witness: a second `room:create` for the demo code is refused, and a create
for the unused code `WXYZ` appends the new room. -/
theorem create_room_witness :
    roomCreate [(demoCode, demoPlaying)] "Z" demoCode (.str "Zoe")
        = ([(demoCode, demoPlaying)], [.reply "Z" (.systemError "Codice stanza già esistente")])
    ∧ roomCreate [(demoCode, demoPlaying)] "Z" (.str "WXYZ") (.str "Zoe")
        = ([(demoCode, demoPlaying)] ++
            [(.str "WXYZ",
              { code := .str "WXYZ", status := .waiting,
                players := [("Z", { name := .str "Zoe", role := .thinker })],
                thinkerSocketId := some "Z", secretWord := none,
                questions := [], guesses := [], turnOrder := [], turnIdx := 0,
                maxQuestions := 20 })],
           [.joinRoom "Z" (.str "WXYZ"),
            .toRoom (.str "WXYZ") (.roomState
              { code := .str "WXYZ", status := .waiting,
                players := [{ id := "Z", name := .str "Zoe", role := .thinker }],
                maxQuestions := 20 })]) :=
  ⟨(create_room "Z" demoCode (.str "Zoe")).1 [(demoCode, demoPlaying)] demoPlaying (by decide),
    (create_room "Z" (.str "WXYZ") (.str "Zoe")).2 [(demoCode, demoPlaying)] (by decide)⟩

/-! ## C17: `room:join` -/

/-- C17: `room:join` for a code without a room, or for a room that is not Waiting,
reports an error to the caller and returns the registry as it was. For a Waiting room
it stores the caller in `players` as a `guesser` with the given name: an existing key
keeps its place, a new key goes last, every other entry and every other field of the
room is the same. -/
theorem join_room (sid : String) (code name : JSVal) (rooms : Registry) :
    (rooms.get code = none →
      roomJoin rooms sid code name = (rooms, [.reply sid (.systemError "Stanza non trovata")]))
    ∧ (∀ room, rooms.get code = some room → room.status ≠ .waiting →
      roomJoin rooms sid code name
        = (rooms, [.reply sid (.systemError "Partita già iniziata")]))
    ∧ (∀ room, rooms.get code = some room → room.status = .waiting →
      ∃ room', (roomJoin rooms sid code name).1 = rooms.set code room'
        ∧ room' = { room with
            players := room.players.set sid { name := name, role := .guesser } }
        ∧ room'.players.get sid = some { name := name, role := .guesser }
        ∧ room'.players.keys
            = (if sid ∈ room.players.keys then room.players.keys
               else room.players.keys ++ [sid])
        ∧ (∀ k, k ≠ sid → room'.players.get k = room.players.get k)) := by
  refine ⟨fun hg => ?_, fun room hg hs => ?_, fun room hg hs => ?_⟩
  · simp [roomJoin, hg]
  · simp [roomJoin, hg, hs]
  · refine ⟨_, roomJoin_fst hg sid name, ?_, ?_, ?_, ?_⟩
    · simp [joinedRoom, hs]
    · simp [joinedRoom, hs, OMap.get_set_self]
    · simp only [joinedRoom, hs, ne_eq, not_true_eq_false, if_false]
      exact OMap.keys_set _ _ _
    · intro k hk
      simp only [joinedRoom, hs, ne_eq, not_true_eq_false, if_false]
      exact OMap.get_set_ne _ _ (Ne.symm hk)

/-- C17, witness: Carol joins the Waiting demo room and goes last; a join for an
unknown code and a join for the Playing room are refused. -/
theorem join_room_witness :
    roomJoin [(demoCode, demoPlaying)] "C" (.str "WXYZ") (.str "Carol")
        = ([(demoCode, demoPlaying)], [.reply "C" (.systemError "Stanza non trovata")])
    ∧ roomJoin [(demoCode, demoPlaying)] "C" demoCode (.str "Carol")
        = ([(demoCode, demoPlaying)], [.reply "C" (.systemError "Partita già iniziata")])
    ∧ (∃ room', (roomJoin [(demoCode, demoWaiting)] "C" demoCode (.str "Carol")).1
          = OMap.set [(demoCode, demoWaiting)] demoCode room'
        ∧ room' = { demoWaiting with
            players := demoWaiting.players.set "C" { name := .str "Carol", role := .guesser } }
        ∧ room'.players.get "C" = some { name := .str "Carol", role := .guesser }
        ∧ room'.players.keys
            = (if "C" ∈ demoWaiting.players.keys then demoWaiting.players.keys
               else demoWaiting.players.keys ++ ["C"])
        ∧ (∀ k, k ≠ "C" → room'.players.get k = demoWaiting.players.get k)) :=
  ⟨(join_room "C" (.str "WXYZ") (.str "Carol") [(demoCode, demoPlaying)]).1 (by decide),
    (join_room "C" demoCode (.str "Carol") [(demoCode, demoPlaying)]).2.1 demoPlaying
      (by decide) (by decide),
    (join_room "C" demoCode (.str "Carol") [(demoCode, demoWaiting)]).2.2 demoWaiting
      (by decide) (by decide)⟩

/-! ## C18: privileged events from another socket -/

/-- C18: for every room and every socket that is not the room's Thinker, `round:start`
and `question:answer` with any payload return the registry as it was and emit nothing,
so no error reaches the caller. -/
theorem non_thinker_ignored {rooms : Registry} {code : JSVal} {room : Room}
    (hg : rooms.get code = some room) {sid : String}
    (hne : room.thinkerSocketId ≠ some sid) (secretWord id answer : JSVal) :
    roundStart rooms sid code secretWord = (rooms, [])
      ∧ questionAnswer rooms sid code id answer = (rooms, []) := by
  have h : some sid ≠ room.thinkerSocketId := fun h => hne h.symm
  constructor
  · simp [roundStart, hg, h]
  · simp [questionAnswer, hg, h]

/-- C18, witness: Bob tries to start and to answer in the demo room. -/
theorem non_thinker_ignored_witness :
    roundStart [(demoCode, demoOnePending)] "B" demoCode (.str "cat")
        = ([(demoCode, demoOnePending)], [])
      ∧ questionAnswer [(demoCode, demoOnePending)] "B" demoCode (.num 1 "1") (.str "yes")
        = ([(demoCode, demoOnePending)], []) :=
  @non_thinker_ignored [(demoCode, demoOnePending)] demoCode demoOnePending (by decide) "B"
    (by decide) (.str "cat") (.num 1 "1") (.str "yes")

/-! ## C19: the public view of a room -/

/-- C19: `publicRoomState` of a room is its code, its status, its players in insertion
order as `(id, name, role)` and `maxQuestions`; two rooms that agree on these four
fields have the same public view, whatever their `secretWord`, `questions`, `guesses`,
`turnOrder` and `turnIdx` are. -/
theorem public_view_hides_secret (r1 r2 : Room) (hc : r1.code = r2.code)
    (hs : r1.status = r2.status) (hp : r1.players = r2.players)
    (hm : r1.maxQuestions = r2.maxQuestions) :
    publicRoomState r1 = publicRoomState r2
      ∧ publicRoomState r1
        = { code := r1.code, status := r1.status,
            players := r1.players.map
              (fun e => { id := e.1, name := e.2.name, role := e.2.role }),
            maxQuestions := r1.maxQuestions } := by
  refine ⟨?_, rfl⟩
  simp [publicRoomState, getPlayers, hc, hs, hp, hm]

/-- C19, witness: the demo room with the secret `turtle` and a pending question, and
the same room restarted with the secret `cat`, have the same public view. -/
theorem public_view_hides_secret_witness :
    publicRoomState demoOnePending = publicRoomState demoRestarted
      ∧ publicRoomState demoOnePending
        = { code := demoOnePending.code, status := demoOnePending.status,
            players := demoOnePending.players.map
              (fun e => { id := e.1, name := e.2.name, role := e.2.role }),
            maxQuestions := demoOnePending.maxQuestions } :=
  public_view_hides_secret demoOnePending demoRestarted (by decide) (by decide) (by decide)
    (by decide)

/-! ## C20: the secret of a Playing room -/

/-- C20, the code at the failing input: in the Playing demo room (secret `turtle`) the
Thinker sends `round:start` with an empty secret. The reachable room is still Playing
and its secret is now the empty string; Bob's blank guess is then recorded as correct
and ends the round. -/
theorem blank_guess_wins :
    roomAfter (run asciiLower [] (demoSetup ++ [.start "A" demoCode (.str "")])) demoCode
      = some demoBlanked
    ∧ demoBlanked.status = .playing ∧ demoBlanked.secretWord = some ""
    ∧ roomAfter (run asciiLower []
        (demoSetup ++ [.start "A" demoCode (.str ""), .guess "B" demoCode (.str "  ")]))
        demoCode
      = some { demoBlanked with
          status := .ended, guesses := [{ guesser := "B", text := "", correct := true }] } := by
  decide


end TwentyQ
